import Mathlib

/-!
Verification of the warehouse-inventory sync/aggregation pipeline.

The TypeScript source is shallowly embedded: JS `Map`s become association
lists with JS `Map.get`/`Map.set` semantics (`mget`/`mset`), JS numbers
become `ℚ`, remote calls become oracle parameters, and timing effects
(delays, progress callbacks, log lines) become an explicit event trace.
-/

namespace WarehouseSync

/-- JS `Map.get`: the value at the first matching key, else `undefined`. -/
def mget [DecidableEq κ] : List (κ × β) → κ → Option β
  | [], _ => none
  | (k, v) :: t, q => if k = q then some v else mget t q

/-- JS `Map.get(k) || d`: default when the key is missing. -/
def mgetD [DecidableEq κ] (m : List (κ × β)) (k : κ) (d : β) : β :=
  (mget m k).getD d

/-- JS `Map.set`: replace the value at an existing key in place, else append. -/
def mset [DecidableEq κ] : List (κ × β) → κ → β → List (κ × β)
  | [], q, w => [(q, w)]
  | (k, v) :: t, q, w => if k = q then (q, w) :: t else (k, v) :: mset t q w

/-- Prisma `delete({where: {key}})`: remove the entry at the key. -/
def mdel [DecidableEq κ] : List (κ × β) → κ → List (κ × β)
  | [], _ => []
  | (k, v) :: t, q => if k = q then t else (k, v) :: mdel t q

/-- Summing a projection of the values of an association list. -/
def msum (f : β → ℚ) (m : List (κ × β)) : ℚ :=
  (m.map fun p => f p.2).sum

/-- JS truthiness of a `number | undefined`: `undefined` and `0` are falsy. -/
def jsTruthyNum : Option ℕ → Bool
  | none => false
  | some n => n != 0

/-- JS `s.toLowerCase()` (ASCII range, as used for the status strings here). -/
def jsToLower (s : String) : String :=
  String.mk (s.data.map Char.toLower)

/-- A character the JS `trim()` removes (the whitespace appearing in the data). -/
def jsWs (c : Char) : Bool :=
  c = ' ' ∨ c = '\t' ∨ c = '\n' ∨ c = '\r'

/-- JS `s.trim()`: strip leading and trailing whitespace. -/
def jsTrim (s : String) : String :=
  String.mk (((s.data.dropWhile jsWs).reverse.dropWhile jsWs).reverse)

/-- Events observable from a fetch/batch run: attempts, waits, progress
callbacks and the log lines the claims talk about. -/
inductive Ev
  | attempt (n : ℕ)
  | delayMs (ms : ℕ)
  | progress (done total : ℕ)
  | fetchId (id : ℕ)
  | logFailedCount (n : ℕ)
  | logStillFailed (n : ℕ)
  deriving DecidableEq, Repr

/-- Outcome of one remote `detail.do` request: a parsed record (`s=true`),
a well-formed failure body (`s=false`), or a thrown transport error. -/
inductive AttemptOutcome (α : Type)
  | ok (d : α)
  | sFalse
  | netError (msg : String)

/-- `AttemptOutcome.netError` recogniser. -/
def AttemptOutcome.isNetError : AttemptOutcome α → Bool
  | .netError _ => true
  | _ => false

/-- The `for (attempt = 1; attempt <= maxRetries; attempt++)` loop of
`fetchInvoiceDetail`/`fetchPODetail` (Dockerfile, atomic variant).
`outcome n` is what the remote call returns on the n-th attempt; `fuel`
is `maxRetries - attempt + 1`, so the loop exits when it reaches 0.
On `s=false` the function returns the null sentinel at once; on a thrown
error it waits `1000 * attempt` ms when `attempt < maxRetries`, else
returns the null sentinel. -/
def attemptLoop (outcome : ℕ → AttemptOutcome α) (maxRetries : ℕ) :
    ℕ → ℕ → Option α × List Ev
  | _, 0 => (none, [])
  | att, fuel + 1 =>
    match outcome att with
    | .ok d => (some d, [.attempt att])
    | .sFalse => (none, [.attempt att])
    | .netError _ =>
      if att < maxRetries then
        let r := attemptLoop outcome maxRetries (att + 1) fuel
        (r.1, .attempt att :: .delayMs (1000 * att) :: r.2)
      else (none, [.attempt att])

/-- `fetchInvoiceDetail(invoiceId, maxRetries = 3)`: retry loop over the
attempt oracle, returning the detail or the `null` sentinel plus the trace
of attempts and backoff delays. -/
def fetchInvoiceDetail (outcome : ℕ → AttemptOutcome α) (maxRetries : ℕ := 3) :
    Option α × List Ev :=
  attemptLoop outcome maxRetries 1 maxRetries

/-- `fetchPODetail(poId, maxRetries = 3)`: textually the same retry loop as
`fetchInvoiceDetail`, over the PO detail endpoint. -/
def fetchPODetail (outcome : ℕ → AttemptOutcome α) (maxRetries : ℕ := 3) :
    Option α × List Ev :=
  attemptLoop outcome maxRetries 1 maxRetries

/-- Number of remote attempts recorded in a trace. -/
def attemptCount (tr : List Ev) : ℕ :=
  (tr.filter fun e => match e with | .attempt _ => true | _ => false).length

/-- The expected trace of `k` failing attempts starting at attempt `a`,
each non-final one followed by its linear-backoff delay, ending in a final
attempt with no delay after it. -/
def failTrace (a : ℕ) : ℕ → List Ev
  | 0 => []
  | 1 => [.attempt a]
  | k + 2 => .attempt a :: .delayMs (1000 * a) :: failTrace (a + 1) (k + 1)

/-- Main pass of the batch fetchers: fixed-size batches joined with
`Promise.all`; per batch, successes are pushed in batch order, null
sentinels collect the id into `failedIds`, and the progress callback fires
once with `(min(i + batchSize, total), total)`.  `o id` is the result of
`fetchXXXDetail(id)` for that id during this pass.  (The recursion consumes
`batchSize` ids per step; `batchSize - 1` below makes Lean's termination
measure work and agrees with the source whenever `batchSize > 0`, which
holds at every call site: 20, 15 and 10.) -/
def mainPass (o : ℕ → Option α) (total bs : ℕ) :
    List ℕ → ℕ → List α × List ℕ × List Ev
  | [], _ => ([], [], [])
  | x :: xs, done =>
    let pending := x :: xs
    let batch := pending.take bs
    let rest := xs.drop (bs - 1)
    let res := batch.filterMap o
    let fails := batch.filter fun id => (o id).isNone
    let done2 := min (done + bs) total
    let r := mainPass o total bs rest done2
    (res ++ r.1, fails ++ r.2.1, .progress done2 total :: r.2.2)
termination_by l _ => l.length
decreasing_by simp [List.length_drop]; omega

/-- Retry pass of the batch fetchers: for each failed id, wait 500 ms, then
call the detail fetcher again (`f id` is the result of the fresh
`fetchXXXDetail(id, 3)` call); successes are pushed and counted. -/
def retryPass (f : ℕ → Option α) : List ℕ → List α × ℕ × List Ev
  | [] => ([], 0, [])
  | id :: rest =>
    let r := f id
    let rp := retryPass f rest
    match r with
    | some d => (d :: rp.1, rp.2.1 + 1, .delayMs 500 :: .fetchId id :: rp.2.2)
    | none => (rp.1, rp.2.1, .delayMs 500 :: .fetchId id :: rp.2.2)

/-- `fetchDetailsInBatch(invoiceIds, batchSize = 20, onProgress)` (Dockerfile,
atomic variant): main batched pass, then a sequential retry pass over the
failed ids (each retried with `fetchInvoiceDetail(id, 3)` after a 500 ms
wait); logs the failed count before the retry pass and the still-failed
count after it; returns the union of both passes' successes. -/
def fetchDetailsInBatch (outcome : Bool → ℕ → ℕ → AttemptOutcome α)
    (invoiceIds : List ℕ) (batchSize : ℕ := 20) : List α × List Ev :=
  let total := invoiceIds.length
  let m := mainPass (fun id => (fetchInvoiceDetail (outcome false id) 3).1)
    total batchSize invoiceIds 0
  if m.2.1.isEmpty then (m.1, m.2.2)
  else
    let rp := retryPass (fun id => (fetchInvoiceDetail (outcome true id) 3).1) m.2.1
    let stillFailed := m.2.1.length - rp.2.1
    (m.1 ++ rp.1,
      m.2.2 ++ .logFailedCount m.2.1.length :: rp.2.2 ++ [.logStillFailed stillFailed])

/-- `fetchPODetailsInBatch(poIds, batchSize = 15, onProgress)` (Dockerfile,
atomic variant): same two-pass shape over `fetchPODetail`; it logs the
failed count before the retry pass but, unlike the invoice variant, logs
nothing after the retry pass (no recovered/still-failed line). -/
def fetchPODetailsInBatch (outcome : Bool → ℕ → ℕ → AttemptOutcome α)
    (poIds : List ℕ) (batchSize : ℕ := 15) : List α × List Ev :=
  let total := poIds.length
  let m := mainPass (fun id => (fetchPODetail (outcome false id) 3).1)
    total batchSize poIds 0
  if m.2.1.isEmpty then (m.1, m.2.2)
  else
    let rp := retryPass (fun id => (fetchPODetail (outcome true id) 3).1) m.2.1
    (m.1 ++ rp.1, m.2.2 ++ .logFailedCount m.2.1.length :: rp.2.2)

/-- The per-batch progress events for `n` ids at batch size `bs`:
one event per batch, carrying `(min(bs*(j+1), n), n)`. -/
def progressTrace (n bs : ℕ) : List Ev :=
  (List.range ((n + bs - 1) / bs)).map fun j => .progress (min (bs * (j + 1)) n) n

/-- The retry-pass trace over a failed-id list: a 500 ms wait before each
fetch. -/
def retryTrace (failed : List ℕ) : List Ev :=
  failed.flatMap fun id => [.delayMs 500, .fetchId id]

/-- `logStillFailed` recogniser, for stating what the PO batch fetcher does
not log. -/
def Ev.isStillFailedLog : Ev → Bool
  | .logStillFailed _ => true
  | _ => false

/-- The value `fetchInvoiceDetail(id)` produces during the main pass. -/
def mainFetch (outcome : Bool → ℕ → ℕ → AttemptOutcome α) (id : ℕ) : Option α :=
  (fetchInvoiceDetail (outcome false id) 3).1

/-- The value `fetchInvoiceDetail(id, 3)` produces during the retry pass. -/
def retryFetch (outcome : Bool → ℕ → ℕ → AttemptOutcome α) (id : ℕ) : Option α :=
  (fetchInvoiceDetail (outcome true id) 3).1

/-- The value `fetchPODetail(id)` produces during the main pass. -/
def mainFetchPO (outcome : Bool → ℕ → ℕ → AttemptOutcome α) (id : ℕ) : Option α :=
  (fetchPODetail (outcome false id) 3).1

/-- The value `fetchPODetail(id, 3)` produces during the retry pass. -/
def retryFetchPO (outcome : Bool → ℕ → ℕ → AttemptOutcome α) (id : ℕ) : Option α :=
  (fetchPODetail (outcome true id) 3).1

/-- The ids whose main-pass fetch returned the null sentinel, in id order. -/
def failedAfterMain (outcome : Bool → ℕ → ℕ → AttemptOutcome α) (ids : List ℕ) :
    List ℕ :=
  ids.filter fun id => (mainFetch outcome id).isNone

/-- The ids whose main-pass PO fetch returned the null sentinel. -/
def failedAfterMainPO (outcome : Bool → ℕ → ℕ → AttemptOutcome α) (ids : List ℕ) :
    List ℕ :=
  ids.filter fun id => (mainFetchPO outcome id).isNone

/-- One month bucket of `ItemSalesData.monthlyData`. -/
structure MonthBucket where
  qty : ℚ
  qtyBox : ℚ
  revenue : ℚ
  deriving DecidableEq, Repr

/-- `ItemSalesData` from the source: per-item sales aggregate. -/
structure ItemSalesData where
  totalQty : ℚ
  totalQtyBox : ℚ
  totalRevenue : ℚ
  monthlyData : List (String × MonthBucket)
  unitConversion : ℤ
  salesUnitName : String
  deriving DecidableEq, Repr

/-- `AccurateInvoiceItem`: one invoice line as produced by the detail fetch
(missing JSON fields already defaulted to `0`/`''` there, as in the source
mapping). -/
structure AccurateInvoiceItem where
  itemNo : String
  quantity : ℚ
  quantityInBase : ℚ
  unitRatio : ℚ
  unitPrice : ℚ
  totalPrice : ℚ
  itemUnitName : String
  deriving DecidableEq, Repr

/-- `AccurateInvoice`: one invoice as consumed by the aggregation loop. -/
structure AccurateInvoice where
  id : ℕ
  transDate : String
  branchId : Option ℕ
  detailItem : List AccurateInvoiceItem
  deriving DecidableEq, Repr

/-- JS `Math.round` (round half toward +∞). -/
def jsRound (q : ℚ) : ℤ :=
  ⌊q + 1/2⌋

/-- The fresh aggregate a first-seen item starts from. -/
def emptyEntry : ItemSalesData :=
  ⟨0, 0, 0, [], 0, ""⟩

/-- The per-line derived values of the aggregation loop:
`qtyPcs = quantityInBase || quantity`, `qtyBox = quantity`,
`lineRevenue = totalPrice || quantity * unitPrice`,
`convRatio = (qtyBox > 0 && qtyPcs !== qtyBox) ? round(qtyPcs/qtyBox) : 0`. -/
def lineVals (d : AccurateInvoiceItem) : ℚ × ℚ × ℚ × ℤ :=
  let qtyPcs := if d.quantityInBase = 0 then d.quantity else d.quantityInBase
  let qtyBox := d.quantity
  let lineRevenue := if d.totalPrice = 0 then d.quantity * d.unitPrice else d.totalPrice
  let convRatio := if qtyBox > 0 ∧ qtyPcs ≠ qtyBox then jsRound (qtyPcs / qtyBox) else 0
  (qtyPcs, qtyBox, lineRevenue, convRatio)

/-- Accumulating one line into one `ItemSalesData` entry: add to the three
totals, keep `unitConversion`/`salesUnitName` on last-truthy-wins, and add
to the line's month bucket. -/
def bumpEntry (entry : ItemSalesData) (monthKey : String)
    (qtyPcs qtyBox lineRevenue : ℚ) (convRatio : ℤ) (unitName : String) :
    ItemSalesData :=
  let e1 := { entry with
    totalQty := entry.totalQty + qtyPcs,
    totalQtyBox := entry.totalQtyBox + qtyBox,
    totalRevenue := entry.totalRevenue + lineRevenue }
  let e2 := if convRatio > 0 then { e1 with unitConversion := convRatio } else e1
  let e3 := if unitName ≠ "" then { e2 with salesUnitName := unitName } else e2
  let curr := mgetD entry.monthlyData monthKey (MonthBucket.mk 0 0 0)
  let newBucket := MonthBucket.mk (curr.qty + qtyPcs) (curr.qtyBox + qtyBox)
    (curr.revenue + lineRevenue)
  { e3 with monthlyData := mset entry.monthlyData monthKey newBucket }

/-- Accumulating one line into an item-keyed sales map (`salesMap.get(itemNo)
|| fresh`, mutate, `salesMap.set(itemNo, entry)`). -/
def bumpMap (m : List (String × ItemSalesData)) (itemNo monthKey : String)
    (qtyPcs qtyBox lineRevenue : ℚ) (convRatio : ℤ) (unitName : String) :
    List (String × ItemSalesData) :=
  mset m itemNo
    (bumpEntry (mgetD m itemNo emptyEntry) monthKey qtyPcs qtyBox lineRevenue
      convRatio unitName)

/-- The two aggregation targets of `fetchAllSalesData`: the combined map and
the per-branch auto-split maps. -/
structure SalesAgg where
  salesMap : List (String × ItemSalesData)
  branchMaps : List (ℕ × List (String × ItemSalesData))
  deriving DecidableEq, Repr

/-- The body of the inner `detailItem.forEach` of `fetchAllSalesData`'s
aggregation loop: skip lines without an item number, accumulate into the
combined map, and — when the sync is not branch-scoped and the invoice has
a truthy branch id — into that branch's map as well. -/
def addLine (branchArg invBranchId : Option ℕ) (monthKey : String)
    (acc : SalesAgg) (d : AccurateInvoiceItem) : SalesAgg :=
  if d.itemNo = "" then acc
  else
    let v := lineVals d
    let unitName := d.itemUnitName
    let salesMap := bumpMap acc.salesMap d.itemNo monthKey v.1 v.2.1 v.2.2.1 v.2.2.2 unitName
    let branchMaps :=
      if jsTruthyNum branchArg = false ∧ jsTruthyNum invBranchId = true then
        let b := invBranchId.getD 0
        mset acc.branchMaps b
          (bumpMap (mgetD acc.branchMaps b []) d.itemNo monthKey v.1 v.2.1 v.2.2.1
            v.2.2.2 unitName)
      else acc.branchMaps
    ⟨salesMap, branchMaps⟩

/-- The per-invoice step of the aggregation loop: derive the invoice's month
key (`getMonthKey(parseAccurateDate(transDate))`, supplied as the pure
function `mkOf`) and fold the lines. -/
def processInvoice (mkOf : String → String) (branchArg : Option ℕ)
    (acc : SalesAgg) (inv : AccurateInvoice) : SalesAgg :=
  inv.detailItem.foldl (addLine branchArg inv.branchId (mkOf inv.transDate)) acc

/-- Step 5 of `fetchAllSalesData` (Dockerfile, atomic variant): aggregate the
fetched invoices into the combined and per-branch maps. -/
def aggregateSales (mkOf : String → String) (branchArg : Option ℕ)
    (invoices : List AccurateInvoice) : SalesAgg :=
  invoices.foldl (processInvoice mkOf branchArg) ⟨[], []⟩

/-- A line's aggregation context: the invoice's branch id and month key. -/
structure LineCtx where
  invBranchId : Option ℕ
  monthKey : String
  d : AccurateInvoiceItem
  deriving DecidableEq, Repr

/-- All lines of an invoice list, each with its invoice's context, in
processing order. -/
def lineCtxs (mkOf : String → String) (invoices : List AccurateInvoice) :
    List LineCtx :=
  invoices.flatMap fun inv =>
    inv.detailItem.map fun d => ⟨inv.branchId, mkOf inv.transDate, d⟩

/-- Totals of the aggregate at a key: `(totalQty, totalQtyBox, totalRevenue)`,
zero when the item is absent (an absent item reads as the fresh entry). -/
def projTotals (m : List (String × ItemSalesData)) (k : String) : ℚ × ℚ × ℚ :=
  ((mgetD m k emptyEntry).totalQty, (mgetD m k emptyEntry).totalQtyBox,
    (mgetD m k emptyEntry).totalRevenue)

/-- One month bucket of the aggregate at a key: `(qty, qtyBox, revenue)`,
zero when absent. -/
def projBucket (m : List (String × ItemSalesData)) (k mk : String) : ℚ × ℚ × ℚ :=
  ((mgetD (mgetD m k emptyEntry).monthlyData mk (MonthBucket.mk 0 0 0)).qty,
    (mgetD (mgetD m k emptyEntry).monthlyData mk (MonthBucket.mk 0 0 0)).qtyBox,
    (mgetD (mgetD m k emptyEntry).monthlyData mk (MonthBucket.mk 0 0 0)).revenue)

/-- Totals of a branch map at a key. -/
def projBranchTotals (bm : List (ℕ × List (String × ItemSalesData))) (b : ℕ)
    (k : String) : ℚ × ℚ × ℚ :=
  projTotals (mgetD bm b []) k

/-- One month bucket of a branch map at a key. -/
def projBranchBucket (bm : List (ℕ × List (String × ItemSalesData))) (b : ℕ)
    (k mk : String) : ℚ × ℚ × ℚ :=
  projBucket (mgetD bm b []) k mk

/-- What a line contributes to the totals of key `k`. -/
def totContrib (k : String) (c : LineCtx) : ℚ × ℚ × ℚ :=
  if c.d.itemNo ≠ "" ∧ c.d.itemNo = k then
    ((lineVals c.d).1, (lineVals c.d).2.1, (lineVals c.d).2.2.1)
  else (0, 0, 0)

/-- What a line contributes to month bucket `mk` of key `k`. -/
def bucketContrib (k mk : String) (c : LineCtx) : ℚ × ℚ × ℚ :=
  if c.monthKey = mk then totContrib k c else (0, 0, 0)

/-- What a line contributes to the totals of key `k` in branch `b`'s map. -/
def brTotContrib (branchArg : Option ℕ) (b : ℕ) (k : String) (c : LineCtx) :
    ℚ × ℚ × ℚ :=
  if jsTruthyNum branchArg = false ∧ jsTruthyNum c.invBranchId = true ∧
      c.invBranchId.getD 0 = b then
    totContrib k c
  else (0, 0, 0)

/-- What a line contributes to bucket `mk` of key `k` in branch `b`'s map. -/
def brBucketContrib (branchArg : Option ℕ) (b : ℕ) (k mk : String)
    (c : LineCtx) : ℚ × ℚ × ℚ :=
  if c.monthKey = mk then brTotContrib branchArg b k c else (0, 0, 0)

/-- The additivity invariant of one aggregate entry: each total equals the
sum of its monthly buckets. -/
def entryAdditive (e : ItemSalesData) : Prop :=
  msum (·.qty) e.monthlyData = e.totalQty ∧
  msum (·.qtyBox) e.monthlyData = e.totalQtyBox ∧
  msum (·.revenue) e.monthlyData = e.totalRevenue

/-- `CLOSED_STATUSES` from the source: PO statuses with no outstanding. -/
def CLOSED_STATUSES : List String :=
  ["ditutup", "closed", "selesai", "void", "cancel", "batal"]

/-- `(statusName || '').toLowerCase().trim()` membership in the closed set. -/
def isClosedStatus (statusName : String) : Bool :=
  CLOSED_STATUSES.contains (jsTrim (jsToLower statusName))

/-- `AccuratePOItem`: one PO line as mapped by `fetchPODetail` (defaults
already applied). -/
structure AccuratePOItem where
  itemNo : String
  quantity : ℚ
  shipQuantity : ℚ
  unitRatio : ℚ
  deriving DecidableEq, Repr

/-- `AccuratePO`: one purchase order as consumed by `aggregatePOOutstanding`. -/
structure AccuratePO where
  id : ℕ
  branchId : Option ℕ
  statusName : String
  detailItem : List AccuratePOItem
  deriving DecidableEq, Repr

/-- The per-line body of `aggregatePOOutstanding`: skip no-item lines,
`outstanding = max(0, quantity - shipQuantity)`, and accumulate positive
outstanding into the combined map and (for truthy branch ids) the branch
map. -/
def poLineStep (poBranchId : Option ℕ)
    (acc : List (String × ℚ) × List (ℕ × List (String × ℚ)))
    (d : AccuratePOItem) : List (String × ℚ) × List (ℕ × List (String × ℚ)) :=
  if d.itemNo = "" then acc
  else
    let outstanding := max 0 (d.quantity - d.shipQuantity)
    if outstanding > 0 then
      let combined := mset acc.1 d.itemNo (mgetD acc.1 d.itemNo 0 + outstanding)
      let perBranch :=
        if jsTruthyNum poBranchId = true then
          let b := poBranchId.getD 0
          let branchMap := mgetD acc.2 b []
          mset acc.2 b (mset branchMap d.itemNo (mgetD branchMap d.itemNo 0 + outstanding))
        else acc.2
      (combined, perBranch)
    else acc

/-- The per-PO body of `aggregatePOOutstanding`: closed POs (status in
`CLOSED_STATUSES`, case-insensitive, trimmed) are skipped entirely. -/
def poStep (acc : List (String × ℚ) × List (ℕ × List (String × ℚ)))
    (po : AccuratePO) : List (String × ℚ) × List (ℕ × List (String × ℚ)) :=
  if isClosedStatus po.statusName then acc
  else po.detailItem.foldl (poLineStep po.branchId) acc

/-- `aggregatePOOutstanding(pos)` (Dockerfile, atomic variant): outstanding
qty per item, combined plus per-branch. -/
def aggregatePOOutstanding (pos : List AccuratePO) :
    List (String × ℚ) × List (ℕ × List (String × ℚ)) :=
  pos.foldl poStep ([], [])

/-- What one PO line contributes to item `k`'s combined outstanding. -/
def poLineContrib (k : String) (d : AccuratePOItem) : ℚ :=
  if d.itemNo ≠ "" ∧ d.itemNo = k then max 0 (d.quantity - d.shipQuantity) else 0

/-- What one PO contributes to item `k`'s combined outstanding: zero for
closed POs, else the sum of its lines' clamped outstanding. -/
def poContrib (k : String) (po : AccuratePO) : ℚ :=
  if isClosedStatus po.statusName then 0
  else (po.detailItem.map (poLineContrib k)).sum

/-- Inventory status labels of the analytics handler. -/
inductive StockStatus
  | OK
  | CRITICAL
  | REORDER
  | OVERSTOCK
  deriving DecidableEq, Repr

/-- The status assignment of the inventory analysis handler, over the metrics
it has just computed (`let status = 'OK'; if … CRITICAL; else if … REORDER;
else if … OVERSTOCK`). -/
def computeStatus (quantity safetyStock reorderPoint avgDailyUsage daysOfSupply : ℚ) :
    StockStatus :=
  if quantity ≤ safetyStock ∧ avgDailyUsage > 0 then .CRITICAL
  else if quantity ≤ reorderPoint ∧ avgDailyUsage > 0 then .REORDER
  else if daysOfSupply > 90 ∨ (avgDailyUsage = 0 ∧ quantity > 0) then .OVERSTOCK
  else .OK

/-- The status precedence exactly as the spec words it (§4.7 step 6), for the
refinement comparison against `computeStatus`. -/
def statusSpec (stock safetyStock reorderPoint avgDailyUsage daysOfSupply : ℚ) :
    StockStatus :=
  if stock ≤ safetyStock ∧ avgDailyUsage > 0 then .CRITICAL
  else if stock ≤ reorderPoint ∧ avgDailyUsage > 0 then .REORDER
  else if daysOfSupply > 90 ∨ (avgDailyUsage = 0 ∧ stock > 0) then .OVERSTOCK
  else .OK

/-- Sales cache TTL: `60 * 60 * 1000` ms (1 hour). -/
def CACHE_TTL_MS : ℕ := 60 * 60 * 1000

/-- Warehouse-stock cache TTL: `2 * 60 * 60 * 1000` ms (2 hours). -/
def WH_STOCK_CACHE_TTL : ℕ := 2 * 60 * 60 * 1000

/-- `branchId ? "-branch" + branchId : ""` (0 is falsy in JS). -/
def branchKeyPart (branchId : Option ℕ) : String :=
  if jsTruthyNum branchId then "-branch" ++ Nat.repr (branchId.getD 0) else ""

/-- `getCacheFile` (lib/accurate.ts): the sales cache file name for a date
key and optional branch. -/
def getCacheFileName (dateKey : String) (branchId : Option ℕ) : String :=
  "sales-cache-" ++ dateKey ++ branchKeyPart branchId ++ ".json"

/-- The legacy all-branch sales cache file. -/
def legacyCacheFileName : String := "sales-cache.json"

/-- `getCacheKey` (Dockerfile, DB variant): the sales cache DB key. -/
def getCacheKey (dateKey : String) (branchId : Option ℕ) : String :=
  "sales-cache-" ++ dateKey ++ branchKeyPart branchId

/-- A persisted sales cache payload: write timestamp plus the serialized
sales map. -/
structure CachedSales where
  timestamp : ℕ
  data : List (String × ItemSalesData)
  deriving DecidableEq, Repr

/-- A persisted warehouse-stock payload: timestamp plus
`itemNo → (warehouseId → qty)`. -/
structure CachedWarehouseStock where
  timestamp : ℕ
  data : List (String × List (ℕ × ℚ))
  deriving DecidableEq, Repr

/-- `loadSalesCache` (src/src/lib/accurate.ts, file-based variant): pick the
branch-keyed file, or — only for the no-branch case — the legacy file; treat
an entry older than `CACHE_TTL_MS` as a miss. `files` models the parsed
cache files on disk. -/
def loadSalesCache (now : ℕ) (files : List (String × CachedSales))
    (dateKey : String) (branchId : Option ℕ) :
    Option (List (String × ItemSalesData)) :=
  let chosen : Option CachedSales :=
    match mget files (getCacheFileName dateKey branchId) with
    | some c => some c
    | none =>
      if jsTruthyNum branchId then none
      else mget files legacyCacheFileName
  match chosen with
  | none => none
  | some cached =>
    if now - cached.timestamp > CACHE_TTL_MS then none
    else some cached.data

/-- The warehouse stock cache file (lib/accurate.ts). -/
def WH_STOCK_CACHE_FILE : String := "warehouse-stock-cache.json"

/-- `loadWarehouseStockCache` (src/src/lib/accurate.ts, file-based variant):
miss when absent or older than `WH_STOCK_CACHE_TTL`. -/
def loadWarehouseStockCache (now : ℕ)
    (files : List (String × CachedWarehouseStock)) :
    Option (List (String × List (ℕ × ℚ))) :=
  match mget files WH_STOCK_CACHE_FILE with
  | none => none
  | some cached =>
    if now - cached.timestamp > WH_STOCK_CACHE_TTL then none
    else some cached.data

/-- One `dataCache` row payload in the DB-backed (atomic) variant. -/
inductive CacheVal
  | sales (c : CachedSales)
  | whStock (c : CachedWarehouseStock)
  | poOutstanding (timestamp : ℕ) (data : List (String × ℚ))
  deriving DecidableEq, Repr

/-- The `dataCache` table: key → payload. -/
abbrev Cache := List (String × CacheVal)

/-- The warehouse stock DB cache key (Dockerfile, DB variant). -/
def WH_STOCK_CACHE_KEY : String := "warehouse-stock-cache"

/-- `PO_CACHE_KEY_PREFIX` from the source. -/
def poCacheKeyBase : String := "po-outstanding-cache"

/-- `getPOCacheKey(branchId)`. -/
def getPOCacheKey (branchId : Option ℕ) : String :=
  if jsTruthyNum branchId then poCacheKeyBase ++ "-branch" ++ Nat.repr (branchId.getD 0)
  else poCacheKeyBase

/-- `loadSalesCache` (Dockerfile lines 1458-1498, DB variant used by the
atomic design): reads the row for the key and returns its map whenever the
row exists. The age `now - timestamp` is computed and logged but never
compared to `CACHE_TTL_MS` — there is no staleness check, despite the
function's own doc comment. -/
def loadSalesCacheDB (now : ℕ) (cache : Cache) (dateKey : String)
    (branchId : Option ℕ) : Option (List (String × ItemSalesData)) :=
  match mget cache (getCacheKey dateKey branchId) with
  | some (.sales cached) => some cached.data
  | _ => none

/-- `loadWarehouseStockCache` (Dockerfile lines 737-762 and 1795-1822, DB
variant): again computes and logs the age but never compares it to
`WH_STOCK_CACHE_TTL`. -/
def loadWarehouseStockCacheDB (now : ℕ) (cache : Cache) :
    Option (List (String × List (ℕ × ℚ))) :=
  match mget cache WH_STOCK_CACHE_KEY with
  | some (.whStock cached) => some cached.data
  | _ => none

/-- `loadPOCache(branchId)` (Dockerfile, DB variant): no TTL check either. -/
def loadPOCache (cache : Cache) (branchId : Option ℕ) :
    Option (List (String × ℚ)) :=
  match mget cache (getPOCacheKey branchId) with
  | some (.poOutstanding _ data) => some data
  | _ => none

/-- `STALE_LOCK_MS = 20 * 60 * 1000` (20 minutes). -/
def STALE_LOCK_MS : ℕ := 20 * 60 * 1000

/-- The scheduler's in-memory single-flight state: the `isRunning` flag and
the time it was set. -/
structure SchedState where
  isRunning : Bool
  isRunningTimestamp : ℕ
  deriving DecidableEq, Repr

/-- The guard at the top of the cron callback in `startScheduler`
(useTableControls.ts, atomic variant): if `isRunning` is set and has been
held for more than `STALE_LOCK_MS` it is force-cleared and the run proceeds;
if held for at most `STALE_LOCK_MS` the run is skipped; otherwise the flag
is taken (`isRunning = true; isRunningTimestamp = now`). Returns the state
after the guard and whether `executeSyncJob` is started. -/
def cronTickStart (st : SchedState) (now : ℕ) : SchedState × Bool :=
  if st.isRunning then
    let staleDuration := now - st.isRunningTimestamp
    if staleDuration > STALE_LOCK_MS then (SchedState.mk true now, true)
    else (st, false)
  else (SchedState.mk true now, true)

/-- The `finally` block around `executeSyncJob` in the cron callback: clears
the flag and its timestamp regardless of the job's outcome. -/
def jobFinally (st : SchedState) (outcome : Except String Unit) : SchedState :=
  SchedState.mk false 0

/-- One Phase-1 listing row: `{id, transDate, branchId}`. -/
structure InvoiceRef where
  id : ℕ
  transDate : String
  branchId : Option ℕ
  deriving DecidableEq, Repr

/-- `saveSalesCache` (DB variant): upsert the sales payload under its key. -/
def saveSalesCacheM (now : ℕ) (dateKey : String) (branchId : Option ℕ)
    (m : List (String × ItemSalesData)) (cache : Cache) : Cache :=
  mset cache (getCacheKey dateKey branchId) (.sales ⟨now, m⟩)

/-- `saveWarehouseStockCache` (DB variant). -/
def saveWarehouseStockCacheM (now : ℕ) (m : List (String × List (ℕ × ℚ)))
    (cache : Cache) : Cache :=
  mset cache WH_STOCK_CACHE_KEY (.whStock ⟨now, m⟩)

/-- `savePOCache(poMap, branchId)` (DB variant). -/
def savePOCacheM (now : ℕ) (branchId : Option ℕ) (m : List (String × ℚ))
    (cache : Cache) : Cache :=
  mset cache (getPOCacheKey branchId) (.poOutstanding now m)

/-- `clearSalesCache(fromDate, branchId)` for a given date: delete that key.
(The date-less delete-all branch is not reached from the sync paths modelled
here.) -/
def clearSalesCacheM (dateKey : String) (branchId : Option ℕ) (cache : Cache) :
    Cache :=
  mdel cache (getCacheKey dateKey branchId)

/-- The branch-id merge after Phase 2 of `fetchAllSalesData`: build
`invoiceId → branchId` from the Phase-1 list (truthy branch ids only) and
fill it into detail-fetched invoices lacking one. -/
def mergeBranch (index : List InvoiceRef) (invoices : List AccurateInvoice) :
    List AccurateInvoice :=
  let bmap := index.foldl
    (fun m r => if jsTruthyNum r.branchId then mset m r.id (r.branchId.getD 0) else m)
    ([] : List (ℕ × ℕ))
  invoices.map fun inv =>
    if jsTruthyNum inv.branchId then inv
    else { inv with branchId := mget bmap inv.id }

/-- The remote side of one `fetchAllSalesData` run: the Phase-1 listing
result (`fetchInvoiceList` swallows request errors and returns what it
collected, so it is a plain list) and the per-attempt outcomes of the
Phase-2 detail endpoint. -/
structure SalesFetchEnv where
  invoiceList : List InvoiceRef
  detail : Bool → ℕ → ℕ → AttemptOutcome AccurateInvoice

/-- Phases 1-2 + aggregation + (unless `skipCacheOps`) the cache writes of
`fetchAllSalesData` (Dockerfile, atomic variant). -/
def fetchAllSalesCore (env : SalesFetchEnv) (mkOf : String → String) (now : ℕ)
    (dateKey : String) (branchId : Option ℕ) (skipCacheOps : Bool)
    (cache : Cache) :
    Cache × (List (String × ItemSalesData) × ℤ × List (ℕ × List (String × ItemSalesData))) :=
  let invoiceIds := env.invoiceList.map (·.id)
  let invoices := (fetchDetailsInBatch env.detail invoiceIds 20).1
  let merged := mergeBranch env.invoiceList invoices
  let agg := aggregateSales mkOf branchId merged
  if skipCacheOps then
    (cache, (agg.salesMap, (invoices.length : ℤ), agg.branchMaps))
  else
    let cache1 := saveSalesCacheM now dateKey branchId agg.salesMap cache
    let cache2 :=
      if jsTruthyNum branchId = false ∧ agg.branchMaps ≠ [] then
        agg.branchMaps.foldl (fun c p => saveSalesCacheM now dateKey (some p.1) p.2 c)
          cache1
      else cache1
    (cache2, (agg.salesMap, (invoices.length : ℤ), agg.branchMaps))

/-- `fetchAllSalesData(fromDate, force, branchId, skipCacheOps)` (Dockerfile,
atomic variant): read-through cache unless forced or in atomic mode; clear
the key first when forced (non-atomic path); skip all cache work when
`skipCacheOps` — the caller commits. -/
def fetchAllSalesData (env : SalesFetchEnv) (mkOf : String → String) (now : ℕ)
    (dateKey : String) (force : Bool) (branchId : Option ℕ)
    (skipCacheOps : Bool) (cache : Cache) :
    Cache × (List (String × ItemSalesData) × ℤ × List (ℕ × List (String × ItemSalesData))) :=
  if ¬ force ∧ ¬ skipCacheOps then
    match loadSalesCacheDB now cache dateKey branchId with
    | some cachedMap => (cache, (cachedMap, -1, []))
    | none => fetchAllSalesCore env mkOf now dateKey branchId skipCacheOps cache
  else if force ∧ ¬ skipCacheOps then
    fetchAllSalesCore env mkOf now dateKey branchId skipCacheOps
      (clearSalesCacheM dateKey branchId cache)
  else
    fetchAllSalesCore env mkOf now dateKey branchId skipCacheOps cache

/-- `fetchWarehouseStock(itemNos, 10, onProgress)`: per item, keep the
non-zero per-warehouse quantities.  `whData` is the
`fetchItemWarehouseStock` oracle (it catches its own errors, returning `[]`).
Batching does not affect the resulting map. -/
def fetchWarehouseStock (whData : String → List (ℕ × ℚ))
    (itemNos : List String) : List (String × List (ℕ × ℚ)) :=
  itemNos.foldl
    (fun m no =>
      let whMap := (whData no).foldl
        (fun wm w => if w.2 ≠ 0 then mset wm w.1 w.2 else wm) []
      mset m no whMap)
    []

/-- Phases of `fetchAllPOOutstanding` after the cache check: empty list ⇒
an empty map is cached at once; otherwise detail fetch, aggregation, and the
combined + per-branch cache writes. `poList` is the `fetchPOList` result
(ids only; that listing already excluded closed POs and never rejects). -/
def fetchAllPOCore (poList : List ℕ)
    (poDetail : Bool → ℕ → ℕ → AttemptOutcome AccuratePO)
    (branchId : Option ℕ) (now : ℕ) (cache : Cache) :
    Cache × (List (String × ℚ) × ℤ) :=
  if poList.isEmpty then
    (savePOCacheM now branchId [] cache, ([], 0))
  else
    let pos := (fetchPODetailsInBatch poDetail poList 15).1
    let agg := aggregatePOOutstanding pos
    let cache1 := savePOCacheM now branchId agg.1 cache
    let cache2 :=
      if jsTruthyNum branchId = false ∧ agg.2 ≠ [] then
        agg.2.foldl (fun c p => savePOCacheM now (some p.1) p.2 c) cache1
      else cache1
    (cache2, (agg.1, (pos.length : ℤ)))

/-- `fetchAllPOOutstanding(force, branchId, onProgress)` (Dockerfile, atomic
variant). Note: even when invoked from the atomic sync job it writes the PO
cache keys itself — only the sales and warehouse-stock writes are deferred. -/
def fetchAllPOOutstanding (poList : List ℕ)
    (poDetail : Bool → ℕ → ℕ → AttemptOutcome AccuratePO) (force : Bool)
    (branchId : Option ℕ) (now : ℕ) (cache : Cache) :
    Cache × (List (String × ℚ) × ℤ) :=
  if ¬ force then
    match loadPOCache cache branchId with
    | some cached => (cache, (cached, -1))
    | none => fetchAllPOCore poList poDetail branchId now cache
  else fetchAllPOCore poList poDetail branchId now cache

/-- The remote world one sync attempt sees. `inventory` is the
`fetchAllInventory` outcome (it rethrows request errors, so it may fail);
`poPhaseFailure` models a rejection of the PO phase (caught, non-critical);
`timeout` says whether the 15-minute `Promise.race` timer wins the attempt
(the raced phases are abandoned, not cancelled, so their own cache effects
still apply). -/
structure AttemptEnv where
  sales : SalesFetchEnv
  inventory : Except String (List String)
  whData : String → List (ℕ × ℚ)
  poList : List ℕ
  poDetail : Bool → ℕ → ℕ → AttemptOutcome AccuratePO
  poPhaseFailure : Option String
  timeout : Bool

/-- What `executeSyncPhases` returns in memory for the caller to commit. -/
structure PhasesOut where
  salesMap : List (String × ItemSalesData)
  invoiceCount : ℤ
  whMap : List (String × List (ℕ × ℚ))
  poItemCount : ℕ

/-- The scheduler configuration data the sync phases consume. -/
structure SyncCfg where
  dateKey : String
  branchId : Option ℕ
  mkOf : String → String
  now : ℕ

/-- `executeSyncPhases(config)` (useTableControls.ts, atomic variant): sales
phases via `fetchAllSalesData(fromDate, true, branchId, true)` — forced and
with `skipCacheOps` — then `fetchAllInventory` + `fetchWarehouseStock`, then
the non-critical `fetchAllPOOutstanding(true, branchId)` wrapped in its own
try/catch. All results are returned in memory; no sales or warehouse cache
write happens here. -/
def executeSyncPhases (cfg : SyncCfg) (env : AttemptEnv) (cache : Cache) :
    Cache × Except String PhasesOut :=
  let s := fetchAllSalesData env.sales cfg.mkOf cfg.now cfg.dateKey true
    cfg.branchId true cache
  match env.inventory with
  | .error e => (s.1, .error e)
  | .ok itemNos =>
    let whMap := fetchWarehouseStock env.whData itemNos
    match env.poPhaseFailure with
    | some _ => (s.1, .ok ⟨s.2.1, s.2.2.1, whMap, 0⟩)
    | none =>
      let p := fetchAllPOOutstanding env.poList env.poDetail true cfg.branchId
        cfg.now s.1
      (p.1, .ok ⟨s.2.1, s.2.2.1, whMap, p.2.1.length⟩)

/-- `attemptSync(config)`: race the phases against the 15-minute timer; a
timeout fails the attempt while the abandoned phases' own cache effects
remain. -/
def attemptSync (cfg : SyncCfg) (env : AttemptEnv) (cache : Cache) :
    Cache × Except String PhasesOut :=
  let r := executeSyncPhases cfg env cache
  if env.timeout then (r.1, .error "Sync timeout: exceeded 15 minutes") else r

/-- `MAX_RETRIES = 3` whole-job attempts. -/
def MAX_RETRIES : ℕ := 3

/-- The retry loop of `executeSyncJob`: run an attempt; on success commit the
sales cache and then the warehouse-stock cache and stop; on failure move to
the next attempt until the attempts are exhausted (job `FAILED`). `envs n`
is what the remote world does on attempt `n`; the boolean result is job
success. (Log-table writes and the 2-minute inter-attempt delay do not touch
the data cache and are elided.) -/
def syncJobLoop (cfg : SyncCfg) (envs : ℕ → AttemptEnv) (attempt : ℕ) :
    ℕ → Cache → Cache × Bool
  | 0, cache => (cache, false)
  | fuel + 1, cache =>
    let r := attemptSync cfg (envs attempt) cache
    match r.2 with
    | .ok out =>
      let c1 := saveSalesCacheM cfg.now cfg.dateKey cfg.branchId out.salesMap r.1
      let c2 := saveWarehouseStockCacheM cfg.now out.whMap c1
      (c2, true)
    | .error _ => syncJobLoop cfg envs (attempt + 1) fuel r.1

/-- `executeSyncJob(trigger)` (useTableControls.ts, atomic variant): up to
`MAX_RETRIES` attempts starting at attempt 1. -/
def executeSyncJob (cfg : SyncCfg) (envs : ℕ → AttemptEnv) (cache : Cache) :
    Cache × Bool :=
  syncJobLoop cfg envs 1 MAX_RETRIES cache

/-- Concrete fixtures for the C1 witness: a 1-attempt world where
`fetchAllInventory` throws on every attempt. -/
def syncCfgW : SyncCfg :=
  ⟨"2025-01-01", none, fun _ => "Jan|2025", 100⟩

/-- An attempt environment whose inventory phase always throws. -/
def attemptEnvFailW : AttemptEnv :=
  ⟨⟨[], fun _ _ _ => .sFalse⟩, .error "db down", fun _ => [], [],
    fun _ _ _ => .sFalse, none, false⟩

/-- A prior cache holding a sales entry for the job's own key. -/
def cacheW : Cache :=
  [(getCacheKey "2025-01-01" none, .sales ⟨50, []⟩)]

/-! ## Theorems -/

theorem mget_mset [DecidableEq κ] (m : List (κ × β)) (k : κ) (v : β) (q : κ) :
    mget (mset m k v) q = if k = q then some v else mget m q := by
  induction m with
  | nil => by_cases h : k = q <;> simp [mset, mget, h]
  | cons p t ih =>
    obtain ⟨a, b⟩ := p
    by_cases hak : a = k
    · subst hak
      by_cases haq : a = q <;> simp [mset, mget, haq, ih]
    · by_cases haq : a = q
      · subst haq
        have hka : ¬ k = a := fun hh => hak hh.symm
        simp [mset, mget, hak, hka]
      · simp [mset, mget, hak, haq, ih]

theorem mget_mdel_ne [DecidableEq κ] (m : List (κ × β)) (k q : κ) (h : k ≠ q) :
    mget (mdel m k) q = mget m q := by
  induction m with
  | nil => simp [mdel]
  | cons p t ih =>
    obtain ⟨a, b⟩ := p
    by_cases hak : a = k
    · subst hak; simp [mdel, mget, h]
    · by_cases haq : a = q
      · subst haq
        have hqk : ¬ a = k := hak
        simp [mdel, mget, hqk]
      · simp [mdel, mget, hak, haq, ih]

theorem msum_mset [DecidableEq κ] (f : β → ℚ) (m : List (κ × β)) (k : κ) (v : β) :
    msum f (mset m k v) =
      msum f m - (match mget m k with | some w => f w | none => 0) + f v := by
  induction m with
  | nil => simp [mset, msum, mget]
  | cons p t ih =>
    obtain ⟨a, b⟩ := p
    by_cases hak : a = k
    · subst hak; simp [mset, msum, mget]; ring
    · simp [mset, msum, mget, hak] at ih ⊢
      rw [ih]; ring

theorem attemptCount_attemptLoop (outcome : ℕ → AttemptOutcome α) (mr : ℕ) :
    ∀ fuel a, attemptCount (attemptLoop outcome mr a fuel).2 ≤ fuel := by
  intro fuel
  induction fuel with
  | zero => intro a; simp [attemptLoop, attemptCount]
  | succ f ih =>
    intro a
    cases h : outcome a with
    | ok d => simp [attemptLoop, h, attemptCount]
    | sFalse => simp [attemptLoop, h, attemptCount]
    | netError m =>
      by_cases hlt : a < mr
      · have := ih (a + 1)
        simp [attemptLoop, h, hlt, attemptCount] at this ⊢
        omega
      · simp [attemptLoop, h, hlt, attemptCount]

theorem attemptLoop_succ (outcome : ℕ → AttemptOutcome α) (mr a fuel : ℕ) :
    attemptLoop outcome mr a (fuel + 1) =
      match outcome a with
      | .ok d => (some d, [.attempt a])
      | .sFalse => (none, [.attempt a])
      | .netError _ =>
        if a < mr then
          ((attemptLoop outcome mr (a + 1) fuel).1,
            .attempt a :: .delayMs (1000 * a) :: (attemptLoop outcome mr (a + 1) fuel).2)
        else (none, [.attempt a]) := rfl

theorem attemptLoop_allFail (outcome : ℕ → AttemptOutcome α) (mr : ℕ) :
    ∀ fuel a, 1 ≤ fuel → a + fuel = mr + 1 →
      (∀ i, a ≤ i → i ≤ mr → (outcome i).isNetError = true) →
      attemptLoop outcome mr a fuel = (none, failTrace a fuel) := by
  intro fuel
  induction fuel with
  | zero => omega
  | succ f ih =>
    intro a _ hsum hall
    have ha : (outcome a).isNetError = true := hall a le_rfl (by omega)
    cases h : outcome a with
    | ok d => rw [h] at ha; simp [AttemptOutcome.isNetError] at ha
    | sFalse => rw [h] at ha; simp [AttemptOutcome.isNetError] at ha
    | netError m =>
      rw [attemptLoop_succ, h]
      match f, hsum with
      | 0, hsum =>
        have hmr : ¬ a < mr := by omega
        simp [hmr, failTrace]
      | f + 1, hsum =>
        have hmr : a < mr := by omega
        have hrec := ih (a + 1) (by omega) (by omega)
          (fun i h1 h2 => hall i (by omega) h2)
        simp [hmr, hrec, failTrace]

theorem attemptLoop_sFalse (outcome : ℕ → AttemptOutcome α) (mr k : ℕ)
    (hk : k ≤ mr) (hsf : outcome k = .sFalse) :
    ∀ fuel a, a ≤ k → k < a + fuel →
      (∀ i, a ≤ i → i < k → (outcome i).isNetError = true) →
      attemptLoop outcome mr a fuel = (none, failTrace a (k - a + 1)) := by
  intro fuel
  induction fuel with
  | zero => omega
  | succ f ih =>
    intro a hak hka hall
    by_cases hk2 : k = a
    · subst hk2
      rw [attemptLoop_succ, hsf]
      simp [failTrace]
    · have ha : (outcome a).isNetError = true := hall a le_rfl (by omega)
      cases h : outcome a with
      | ok d => rw [h] at ha; simp [AttemptOutcome.isNetError] at ha
      | sFalse => rw [h] at ha; simp [AttemptOutcome.isNetError] at ha
      | netError m =>
        have hmr : a < mr := by omega
        have hrec := ih (a + 1) (by omega) (by omega)
          (fun i h1 h2 => hall i (by omega) h2)
        have hshape : k - a + 1 = (k - (a + 1) + 1) + 1 := by omega
        rw [attemptLoop_succ, h, hshape]
        have hs2 : k - (a + 1) + 1 + 1 = (k - (a + 1)) + 2 := by omega
        rw [hs2]
        simp [hmr, hrec, failTrace]

theorem attemptCount_failTrace : ∀ m a, attemptCount (failTrace a m) = m := by
  intro m
  induction m with
  | zero => intro a; simp [failTrace, attemptCount]
  | succ n ih =>
    intro a
    match n with
    | 0 => simp [failTrace, attemptCount]
    | n + 1 =>
      have := ih (a + 1)
      simp [failTrace, attemptCount] at this ⊢
      omega

theorem mainPass_spec (o : ℕ → Option α) (total bs : ℕ) (hbs : 0 < bs) :
    ∀ pending done, mainPass o total bs pending done =
      (pending.filterMap o, pending.filter (fun id => (o id).isNone),
        (List.range ((pending.length + bs - 1) / bs)).map
          fun j => .progress (min (done + bs * (j + 1)) total) total) := by
  intro pending done
  induction pending, done using mainPass.induct o total bs with
  | case1 d =>
    have h0 : (bs - 1) / bs = 0 := Nat.div_eq_of_lt (by omega)
    simp [mainPass, h0]
  | case2 x xs done rest done2 ih =>
    rw [mainPass]
    simp only [ih, Prod.mk.injEq]
    have hL : (x :: xs).length = xs.length + 1 := rfl
    have htake : (x :: xs).take bs = x :: xs.take (bs - 1) := by
      cases bs with
      | zero => omega
      | succ n => simp
    have hsplit : (x :: xs.take (bs - 1)) ++ xs.drop (bs - 1) = x :: xs := by
      simp [List.take_append_drop]
    refine ⟨?_, ?_, ?_⟩
    · rw [htake, ← List.filterMap_append, hsplit]
    · rw [htake, ← List.filter_append, hsplit]
    · -- trace component
      have hm : ((x :: xs).length + bs - 1) / bs = (xs.length.succ - 1) / bs + 1 := by
        rw [hL]
        have : xs.length + 1 + bs - 1 = (xs.length + 1 - 1) + bs := by omega
        rw [this, Nat.add_div_right _ hbs]
      have hrest : ((xs.drop (bs - 1)).length + bs - 1) / bs = (xs.length.succ - 1) / bs := by
        rw [List.length_drop]
        by_cases hc : xs.length + 1 ≥ bs
        · have : xs.length - (bs - 1) + bs - 1 = xs.length.succ - 1 := by omega
          rw [this]
        · have h1 : xs.length - (bs - 1) = 0 := by omega
          rw [h1]
          have h2 : (0 + bs - 1) / bs = 0 := Nat.div_eq_of_lt (by omega)
          have h3 : (xs.length.succ - 1) / bs = 0 := Nat.div_eq_of_lt (by omega)
          rw [h2, h3]
      rw [hm, hrest, List.range_succ_eq_map, List.map_cons, List.map_map]
      congr 1
      · congr 1
        omega
      · apply List.map_congr_left
        intro j hj
        simp only [Function.comp]
        congr 1
        have hms : bs * (j + 1 + 1) = bs * (j + 1) + bs := by ring
        rw [hms]
        omega

theorem retryPass_spec (f : ℕ → Option α) :
    ∀ l, retryPass f l = (l.filterMap f, (l.filterMap f).length, retryTrace l) := by
  intro l
  induction l with
  | nil => simp [retryPass, retryTrace]
  | cons id rest ih =>
    cases h : f id with
    | some d => simp [retryPass, h, ih, retryTrace]
    | none => simp [retryPass, h, ih, retryTrace]

/-- C5: `fetchInvoiceDetail` and `fetchPODetail` attempt the remote call at
most `maxRetries` times; when every attempt throws, the trace is exactly the
attempts interleaved with linear-backoff waits of `attempt × 1000` ms after
each failed non-final attempt, and the final failed attempt yields the null
sentinel (the functions return a value, they never propagate the error). -/
theorem fetchDetail_retry_contract {α : Type} (outcome : ℕ → AttemptOutcome α)
    (mr : ℕ) :
    attemptCount (fetchInvoiceDetail outcome mr).2 ≤ mr ∧
    fetchPODetail outcome mr = fetchInvoiceDetail outcome mr ∧
    (1 ≤ mr → (∀ i, 1 ≤ i → i ≤ mr → (outcome i).isNetError = true) →
      fetchInvoiceDetail outcome mr = (none, failTrace 1 mr) ∧
      fetchPODetail outcome mr = (none, failTrace 1 mr)) := by
  refine ⟨attemptCount_attemptLoop outcome mr mr 1, rfl, fun h1 hall => ?_⟩
  have := attemptLoop_allFail outcome mr mr 1 h1 (by omega) hall
  exact ⟨this, this⟩

/-- Witness for C5 at a concrete input: 3 attempts that all throw. -/
theorem fetchDetail_retry_contract_witness :
    fetchInvoiceDetail (fun _ => (AttemptOutcome.netError "boom" : AttemptOutcome Unit)) 3 =
      (none, [.attempt 1, .delayMs 1000, .attempt 2, .delayMs 2000, .attempt 3]) := by
  have h := (fetchDetail_retry_contract
      (fun _ => (AttemptOutcome.netError "boom" : AttemptOutcome Unit)) 3).2.2
    (by decide) (fun i _ _ => rfl)
  rw [h.1]
  rfl

/-- C10: when the remote detail API responds with a well-formed failure body
(`s=false`) on attempt `k` after `k-1` thrown attempts, `fetchInvoiceDetail`
and `fetchPODetail` return the null sentinel immediately on that attempt:
exactly `k` attempts happen, and the trace ends at attempt `k` with no
backoff delay after it — the retry loop continues only on thrown errors. -/
theorem fetchDetail_sFalse_no_retry {α : Type} (outcome : ℕ → AttemptOutcome α)
    (mr k : ℕ) (hk1 : 1 ≤ k) (hk : k ≤ mr) (hsf : outcome k = .sFalse)
    (hpre : ∀ i, 1 ≤ i → i < k → (outcome i).isNetError = true) :
    fetchInvoiceDetail outcome mr = (none, failTrace 1 k) ∧
    fetchPODetail outcome mr = (none, failTrace 1 k) ∧
    attemptCount (fetchInvoiceDetail outcome mr).2 = k := by
  have h := attemptLoop_sFalse outcome mr k hk hsf mr 1 hk1 (by omega) hpre
  have hk2 : k - 1 + 1 = k := by omega
  rw [hk2] at h
  refine ⟨h, h, ?_⟩
  show attemptCount (attemptLoop outcome mr 1 mr).2 = k
  rw [h]
  exact attemptCount_failTrace k 1

/-- Witness for C10 at a concrete input: `s=false` on the very first attempt. -/
theorem fetchDetail_sFalse_no_retry_witness :
    fetchInvoiceDetail (fun _ => (AttemptOutcome.sFalse : AttemptOutcome Unit)) 3 =
      (none, [.attempt 1]) := by
  have h := fetchDetail_sFalse_no_retry
      (fun _ => (AttemptOutcome.sFalse : AttemptOutcome Unit)) 3 1
    (by decide) (by decide) rfl (fun i h1 h2 => by omega)
  rw [h.1]
  rfl

/-- C4 (counterexample to the claim as stated): the claim requires the number
of ids still failing after both passes to be logged by both batch fetchers;
for `fetchPODetailsInBatch` on the single id 7 whose detail fetch always
throws, the id fails both passes (no successes at all), the pre-retry failed
count is logged, yet no still-failed log event appears in the trace. -/
theorem fetchPODetailsInBatch_no_stillFailed_log :
    (fetchPODetailsInBatch
        (fun _ _ _ => (AttemptOutcome.netError "down" : AttemptOutcome Unit)) [7] 15).1 = [] ∧
    Ev.logFailedCount 1 ∈ (fetchPODetailsInBatch
        (fun _ _ _ => (AttemptOutcome.netError "down" : AttemptOutcome Unit)) [7] 15).2 ∧
    ((fetchPODetailsInBatch
        (fun _ _ _ => (AttemptOutcome.netError "down" : AttemptOutcome Unit)) [7] 15).2.all
      fun e => ! e.isStillFailedLog) = true := by
  have hm := mainPass_spec
    (fun id => (fetchPODetail
      ((fun _ _ _ => (AttemptOutcome.netError "down" : AttemptOutcome Unit)) false id) 3).1)
    1 15 (by norm_num) [7] 0
  constructor
  · simp only [fetchPODetailsInBatch, List.length_cons, List.length_nil, hm]
    decide
  constructor
  · simp only [fetchPODetailsInBatch, List.length_cons, List.length_nil, hm]
    decide
  · simp only [fetchPODetailsInBatch, List.length_cons, List.length_nil, hm]
    decide

/-- C4 (amended): for every id list handed to `fetchDetailsInBatch` /
`fetchPODetailsInBatch` with a positive batch size: the ids whose main-pass
fetch returned the null sentinel are retried sequentially, each preceded by
a 500 ms delay and each given a fresh `fetchXXXDetail(id, 3)` call (so up to
`maxRetries = 3` attempts again); the result is the union of the successes
of both passes; the progress callback fires once per batch with
`(done, total)`; nothing is ever thrown.  The still-failing count after both
passes is logged by `fetchDetailsInBatch` (whenever the main pass had
failures) but `fetchPODetailsInBatch` logs no still-failed count. -/
theorem batch_two_pass_contract {α : Type} (outcome : Bool → ℕ → ℕ → AttemptOutcome α)
    (ids : List ℕ) (bs : ℕ) (hbs : 0 < bs) :
    (fetchDetailsInBatch outcome ids bs).1 =
      ids.filterMap (mainFetch outcome) ++
        (failedAfterMain outcome ids).filterMap (retryFetch outcome) ∧
    (fetchDetailsInBatch outcome ids bs).2 =
      progressTrace ids.length bs ++
        (if failedAfterMain outcome ids = [] then []
         else Ev.logFailedCount (failedAfterMain outcome ids).length ::
           retryTrace (failedAfterMain outcome ids) ++
             [Ev.logStillFailed ((failedAfterMain outcome ids).length -
               ((failedAfterMain outcome ids).filterMap (retryFetch outcome)).length)]) ∧
    (fetchPODetailsInBatch outcome ids bs).1 =
      ids.filterMap (mainFetchPO outcome) ++
        (failedAfterMainPO outcome ids).filterMap (retryFetchPO outcome) ∧
    (fetchPODetailsInBatch outcome ids bs).2 =
      progressTrace ids.length bs ++
        (if failedAfterMainPO outcome ids = [] then []
         else Ev.logFailedCount (failedAfterMainPO outcome ids).length ::
           retryTrace (failedAfterMainPO outcome ids)) := by
  have hm := mainPass_spec (fun id => (fetchInvoiceDetail (outcome false id) 3).1)
    ids.length bs hbs ids 0
  have hmPO := mainPass_spec (fun id => (fetchPODetail (outcome false id) 3).1)
    ids.length bs hbs ids 0
  have hr := retryPass_spec (fun id => (fetchInvoiceDetail (outcome true id) 3).1)
  have hrPO := retryPass_spec (fun id => (fetchPODetail (outcome true id) 3).1)
  have hmf : mainFetch (α := α) outcome =
      fun id => (fetchInvoiceDetail (outcome false id) 3).1 := rfl
  have hrf : retryFetch (α := α) outcome =
      fun id => (fetchInvoiceDetail (outcome true id) 3).1 := rfl
  have hmfPO : mainFetchPO (α := α) outcome =
      fun id => (fetchPODetail (outcome false id) 3).1 := rfl
  have hrfPO : retryFetchPO (α := α) outcome =
      fun id => (fetchPODetail (outcome true id) 3).1 := rfl
  simp only [fetchDetailsInBatch, fetchPODetailsInBatch, hm, hmPO, hr, hrPO,
    failedAfterMain, failedAfterMainPO, hmf, hrf, hmfPO, hrfPO,
    progressTrace, retryTrace, Nat.zero_add]
  by_cases hfail : (List.filter
      (fun id => ((fetchInvoiceDetail (outcome false id) 3).1).isNone) ids) = []
  · have hfailPO : (List.filter
        (fun id => ((fetchPODetail (outcome false id) 3).1).isNone) ids) = [] := hfail
    rw [hfail, hfailPO]
    simp
  · have hfailPO : ¬ (List.filter
        (fun id => ((fetchPODetail (outcome false id) 3).1).isNone) ids) = [] := hfail
    have he : (List.filter
        (fun id => ((fetchInvoiceDetail (outcome false id) 3).1).isNone) ids).isEmpty
        = false := by
      simp [List.isEmpty_iff, hfail]
    have hePO : (List.filter
        (fun id => ((fetchPODetail (outcome false id) 3).1).isNone) ids).isEmpty
        = false := he
    rw [he, hePO, if_neg hfail, if_neg hfailPO]
    simp

/-- Witness for the amended C4 at a concrete input: three ids, batch size 2,
every fetch succeeding at once. -/
theorem batch_two_pass_contract_witness :
    (fetchDetailsInBatch
      (fun _ _ _ => (AttemptOutcome.ok () : AttemptOutcome Unit)) [1, 2, 3] 2).1 =
      [(), (), ()] := by
  have h := (batch_two_pass_contract
    (fun _ _ _ => (AttemptOutcome.ok () : AttemptOutcome Unit)) [1, 2, 3] 2 (by decide)).1
  rw [h]
  decide

theorem foldl_preserve {σ τ : Type} {P : σ → Prop} (step : σ → τ → σ)
    (h : ∀ a x, P a → P (step a x)) :
    ∀ (l : List τ) (a : σ), P a → P (l.foldl step a) := by
  intro l
  induction l with
  | nil => intro a ha; simpa
  | cons x rest ih => intro a ha; exact ih (step a x) (h a x ha)

theorem bumpEntry_totalQty (e : ItemSalesData) (mk : String) (q b r : ℚ)
    (c : ℤ) (u : String) : (bumpEntry e mk q b r c u).totalQty = e.totalQty + q := by
  simp only [bumpEntry]
  split_ifs <;> rfl

theorem bumpEntry_totalQtyBox (e : ItemSalesData) (mk : String) (q b r : ℚ)
    (c : ℤ) (u : String) :
    (bumpEntry e mk q b r c u).totalQtyBox = e.totalQtyBox + b := by
  simp only [bumpEntry]
  split_ifs <;> rfl

theorem bumpEntry_totalRevenue (e : ItemSalesData) (mk : String) (q b r : ℚ)
    (c : ℤ) (u : String) :
    (bumpEntry e mk q b r c u).totalRevenue = e.totalRevenue + r := by
  simp only [bumpEntry]
  split_ifs <;> rfl

theorem bumpEntry_monthlyData (e : ItemSalesData) (mk : String) (q b r : ℚ)
    (c : ℤ) (u : String) :
    (bumpEntry e mk q b r c u).monthlyData =
      mset e.monthlyData mk
        (MonthBucket.mk ((mgetD e.monthlyData mk (MonthBucket.mk 0 0 0)).qty + q)
          ((mgetD e.monthlyData mk (MonthBucket.mk 0 0 0)).qtyBox + b)
          ((mgetD e.monthlyData mk (MonthBucket.mk 0 0 0)).revenue + r)) := by
  simp only [bumpEntry]

theorem entryAdditive_bumpEntry (e : ItemSalesData) (mk : String) (q b r : ℚ)
    (c : ℤ) (u : String) (h : entryAdditive e) :
    entryAdditive (bumpEntry e mk q b r c u) := by
  obtain ⟨h1, h2, h3⟩ := h
  refine ⟨?_, ?_, ?_⟩
  · rw [bumpEntry_monthlyData, msum_mset, bumpEntry_totalQty, ← h1]
    cases hm : mget e.monthlyData mk <;> simp [mgetD, hm] <;> ring
  · rw [bumpEntry_monthlyData, msum_mset, bumpEntry_totalQtyBox, ← h2]
    cases hm : mget e.monthlyData mk <;> simp [mgetD, hm] <;> ring
  · rw [bumpEntry_monthlyData, msum_mset, bumpEntry_totalRevenue, ← h3]
    cases hm : mget e.monthlyData mk <;> simp [mgetD, hm] <;> ring

/-- Every entry reachable by `mget` in a sales map is additive. -/
def mapAdditive (m : List (String × ItemSalesData)) : Prop :=
  ∀ k e, mget m k = some e → entryAdditive e

theorem entryAdditive_empty : entryAdditive emptyEntry := by
  refine ⟨?_, ?_, ?_⟩ <;> simp [emptyEntry, msum]

theorem mapAdditive_bumpMap (m : List (String × ItemSalesData))
    (itemNo mk : String) (q b r : ℚ) (c : ℤ) (u : String)
    (h : mapAdditive m) : mapAdditive (bumpMap m itemNo mk q b r c u) := by
  intro k e he
  rw [bumpMap, mget_mset] at he
  by_cases hk : itemNo = k
  · rw [if_pos hk] at he
    have hbase : entryAdditive (mgetD m itemNo emptyEntry) := by
      cases hm : mget m itemNo with
      | some w => simpa [mgetD, hm] using h itemNo w hm
      | none => simpa [mgetD, hm] using entryAdditive_empty
    have := entryAdditive_bumpEntry (mgetD m itemNo emptyEntry) mk q b r c u hbase
    rwa [← Option.some_inj.mp he]
  · rw [if_neg hk] at he
    exact h k e he

/-- Both aggregation targets only hold additive entries. -/
def aggAdditive (acc : SalesAgg) : Prop :=
  mapAdditive acc.salesMap ∧
  ∀ b bm, mget acc.branchMaps b = some bm → mapAdditive bm

theorem aggAdditive_addLine (branchArg invBranchId : Option ℕ) (mk : String)
    (acc : SalesAgg) (d : AccurateInvoiceItem) (h : aggAdditive acc) :
    aggAdditive (addLine branchArg invBranchId mk acc d) := by
  obtain ⟨hs, hb⟩ := h
  by_cases h0 : d.itemNo = ""
  · simpa [addLine, h0] using ⟨hs, hb⟩
  · rw [addLine, if_neg h0]
    refine ⟨?_, ?_⟩
    · exact mapAdditive_bumpMap _ _ _ _ _ _ _ _ hs
    · by_cases hg : jsTruthyNum branchArg = false ∧ jsTruthyNum invBranchId = true
      · simp only [if_pos hg]
        intro b bm hbm
        rw [mget_mset] at hbm
        by_cases hbeq : invBranchId.getD 0 = b
        · rw [if_pos hbeq] at hbm
          have hbase : mapAdditive (mgetD acc.branchMaps (invBranchId.getD 0) []) := by
            cases hm : mget acc.branchMaps (invBranchId.getD 0) with
            | some w => simpa [mgetD, hm] using hb _ w hm
            | none =>
              simp only [mgetD, hm, Option.getD_none]
              intro k e' he'
              simp [mget] at he'
          have := mapAdditive_bumpMap (mgetD acc.branchMaps (invBranchId.getD 0) [])
            d.itemNo mk (lineVals d).1 (lineVals d).2.1 (lineVals d).2.2.1
            (lineVals d).2.2.2 d.itemUnitName hbase
          rwa [← Option.some_inj.mp hbm]
        · rw [if_neg hbeq] at hbm
          exact hb b bm hbm
      · simp only [if_neg hg]
        exact hb

theorem aggAdditive_processInvoice (mkOf : String → String)
    (branchArg : Option ℕ) (acc : SalesAgg) (inv : AccurateInvoice)
    (h : aggAdditive acc) :
    aggAdditive (processInvoice mkOf branchArg acc inv) :=
  foldl_preserve _ (fun a x ha => aggAdditive_addLine _ _ _ a x ha)
    inv.detailItem acc h

/-- C6: every aggregate the sales aggregation of `fetchAllSalesData` produces
— in the combined map and in every per-branch map — satisfies additivity:
the sum of its monthly buckets' `qty`, `qtyBox` and `revenue` equal
`totalQty`, `totalQtyBox` and `totalRevenue`. -/
theorem sales_aggregation_additive (mkOf : String → String)
    (branchArg : Option ℕ) (invoices : List AccurateInvoice) :
    (∀ itemNo e,
      mget (aggregateSales mkOf branchArg invoices).salesMap itemNo = some e →
        entryAdditive e) ∧
    (∀ b bm,
      mget (aggregateSales mkOf branchArg invoices).branchMaps b = some bm →
        ∀ itemNo e, mget bm itemNo = some e → entryAdditive e) := by
  have hbase : aggAdditive ⟨[], []⟩ := by
    constructor
    · intro k e he; simp [mget] at he
    · intro b bm hbm; simp [mget] at hbm
  have h := foldl_preserve (processInvoice mkOf branchArg)
    (fun a x ha => aggAdditive_processInvoice mkOf branchArg a x ha)
    invoices ⟨[], []⟩ hbase
  exact ⟨h.1, fun b bm hbm itemNo e he => h.2 b bm hbm itemNo e he⟩

theorem aggregateSales_lines (mkOf : String → String) (branchArg : Option ℕ) :
    ∀ (invs : List AccurateInvoice) (acc : SalesAgg),
      invs.foldl (processInvoice mkOf branchArg) acc =
        (lineCtxs mkOf invs).foldl
          (fun a c => addLine branchArg c.invBranchId c.monthKey a c.d) acc := by
  intro invs
  induction invs with
  | nil => intro acc; simp [lineCtxs]
  | cons inv rest ih =>
    intro acc
    simp only [List.foldl_cons, lineCtxs, List.flatMap_cons, List.foldl_append,
      List.foldl_map]
    rw [ih]
    rfl

theorem mgetD_mset [DecidableEq κ] (m : List (κ × β)) (k : κ) (v : β) (q : κ)
    (d : β) : mgetD (mset m k v) q d = if k = q then v else mgetD m q d := by
  by_cases h : k = q <;> simp [mgetD, mget_mset, h]

theorem projTotals_bumpMap (m : List (String × ItemSalesData))
    (itemNo mk : String) (q b r : ℚ) (c : ℤ) (u : String) (k : String) :
    projTotals (bumpMap m itemNo mk q b r c u) k =
      projTotals m k + (if itemNo = k then (q, b, r) else (0, 0, 0)) := by
  rw [bumpMap]
  by_cases hk : itemNo = k
  · subst hk
    simp [projTotals, mgetD_mset, bumpEntry_totalQty, bumpEntry_totalQtyBox,
      bumpEntry_totalRevenue, Prod.ext_iff]
  · simp [projTotals, mgetD_mset, hk, Prod.ext_iff]

theorem projBucket_bumpMap (m : List (String × ItemSalesData))
    (itemNo mk : String) (q b r : ℚ) (c : ℤ) (u : String) (k mk' : String) :
    projBucket (bumpMap m itemNo mk q b r c u) k mk' =
      projBucket m k mk' + (if itemNo = k ∧ mk = mk' then (q, b, r) else (0, 0, 0)) := by
  rw [bumpMap]
  by_cases hk : itemNo = k
  · subst hk
    by_cases hmk : mk = mk'
    · subst hmk
      simp [projBucket, mgetD_mset, bumpEntry_monthlyData, Prod.ext_iff]
    · simp [projBucket, mgetD_mset, bumpEntry_monthlyData, hmk, Prod.ext_iff]
  · simp [projBucket, mgetD_mset, hk, Prod.ext_iff]

theorem projTotals_addLine (branchArg ib : Option ℕ) (mk : String)
    (acc : SalesAgg) (d : AccurateInvoiceItem) (k : String) :
    projTotals (addLine branchArg ib mk acc d).salesMap k =
      projTotals acc.salesMap k + totContrib k ⟨ib, mk, d⟩ := by
  by_cases h0 : d.itemNo = ""
  · simp [addLine, h0, totContrib]
  · rw [addLine, if_neg h0]
    simp only [projTotals_bumpMap, totContrib]
    congr 1
    by_cases hk : d.itemNo = k
    · have hk0 : ¬ k = "" := by rw [← hk]; exact h0
      simp [h0, hk, hk0]
    · simp [h0, hk]

theorem projBucket_addLine (branchArg ib : Option ℕ) (mk : String)
    (acc : SalesAgg) (d : AccurateInvoiceItem) (k mk' : String) :
    projBucket (addLine branchArg ib mk acc d).salesMap k mk' =
      projBucket acc.salesMap k mk' + bucketContrib k mk' ⟨ib, mk, d⟩ := by
  by_cases h0 : d.itemNo = ""
  · simp [addLine, h0, bucketContrib, totContrib]
  · rw [addLine, if_neg h0]
    simp only [projBucket_bumpMap, bucketContrib, totContrib]
    congr 1
    by_cases hk : d.itemNo = k
    · have hk0 : ¬ k = "" := by rw [← hk]; exact h0
      by_cases hmk : mk = mk' <;> simp [h0, hk, hk0, hmk]
    · by_cases hmk : mk = mk' <;> simp [h0, hk, hmk]

theorem projTotals_nil_map (k : String) :
    projTotals ([] : List (String × ItemSalesData)) k = (0, 0, 0) := by
  simp [projTotals, mgetD, mget, emptyEntry]

theorem projBranchTotals_addLine (branchArg ib : Option ℕ) (mk : String)
    (acc : SalesAgg) (d : AccurateInvoiceItem) (b : ℕ) (k : String) :
    projBranchTotals (addLine branchArg ib mk acc d).branchMaps b k =
      projBranchTotals acc.branchMaps b k + brTotContrib branchArg b k ⟨ib, mk, d⟩ := by
  by_cases h0 : d.itemNo = ""
  · simp [addLine, h0, brTotContrib, totContrib]
  · rw [addLine, if_neg h0]
    by_cases hg : jsTruthyNum branchArg = false ∧ jsTruthyNum ib = true
    · simp only [if_pos hg]
      by_cases hb : ib.getD 0 = b
      · subst hb
        simp only [projBranchTotals]
        rw [mgetD_mset, if_pos rfl, projTotals_bumpMap]
        congr 1
        simp only [brTotContrib, totContrib, hg.1, hg.2]
        by_cases hk : d.itemNo = k
        · have hk0 : ¬ k = "" := by rw [← hk]; exact h0
          simp [h0, hk, hk0]
        · simp [h0, hk]
      · simp only [projBranchTotals]
        rw [mgetD_mset, if_neg hb]
        have hz : brTotContrib branchArg b k ⟨ib, mk, d⟩ = (0, 0, 0) := by
          simp only [brTotContrib]
          rw [if_neg]
          intro hcon
          exact hb hcon.2.2
        rw [hz]
        simp [Prod.ext_iff]
    · simp only [if_neg hg]
      have hz : brTotContrib branchArg b k ⟨ib, mk, d⟩ = (0, 0, 0) := by
        simp only [brTotContrib]
        rw [if_neg]
        intro hcon
        exact hg ⟨hcon.1, hcon.2.1⟩
      rw [hz]
      simp [Prod.ext_iff]

theorem projBucket_nil_map (k mk : String) :
    projBucket ([] : List (String × ItemSalesData)) k mk = (0, 0, 0) := by
  simp [projBucket, mgetD, mget, emptyEntry]

theorem projBranchBucket_addLine (branchArg ib : Option ℕ) (mk : String)
    (acc : SalesAgg) (d : AccurateInvoiceItem) (b : ℕ) (k mk' : String) :
    projBranchBucket (addLine branchArg ib mk acc d).branchMaps b k mk' =
      projBranchBucket acc.branchMaps b k mk' +
        brBucketContrib branchArg b k mk' ⟨ib, mk, d⟩ := by
  by_cases h0 : d.itemNo = ""
  · simp [addLine, h0, brBucketContrib, brTotContrib, totContrib]
  · rw [addLine, if_neg h0]
    by_cases hg : jsTruthyNum branchArg = false ∧ jsTruthyNum ib = true
    · simp only [if_pos hg]
      by_cases hb : ib.getD 0 = b
      · subst hb
        simp only [projBranchBucket]
        rw [mgetD_mset, if_pos rfl, projBucket_bumpMap]
        congr 1
        simp only [brBucketContrib, brTotContrib, totContrib, hg.1, hg.2]
        by_cases hk : d.itemNo = k
        · have hk0 : ¬ k = "" := by rw [← hk]; exact h0
          by_cases hmk : mk = mk' <;> simp [h0, hk, hk0, hmk]
        · by_cases hmk : mk = mk' <;> simp [h0, hk, hmk]
      · simp only [projBranchBucket]
        rw [mgetD_mset, if_neg hb]
        have hz : brBucketContrib branchArg b k mk' ⟨ib, mk, d⟩ = (0, 0, 0) := by
          simp only [brBucketContrib, brTotContrib]
          by_cases hmk : mk = mk'
          · rw [if_pos hmk, if_neg]
            intro hcon
            exact hb hcon.2.2
          · rw [if_neg hmk]
        rw [hz]
        simp [Prod.ext_iff]
    · simp only [if_neg hg]
      have hz : brBucketContrib branchArg b k mk' ⟨ib, mk, d⟩ = (0, 0, 0) := by
        simp only [brBucketContrib, brTotContrib]
        by_cases hmk : mk = mk'
        · rw [if_pos hmk, if_neg]
          intro hcon
          exact hg ⟨hcon.1, hcon.2.1⟩
        · rw [if_neg hmk]
      rw [hz]
      simp [Prod.ext_iff]

theorem projTotals_fold (branchArg : Option ℕ) :
    ∀ (cs : List LineCtx) (acc : SalesAgg) (k : String),
      projTotals ((cs.foldl
        (fun a c => addLine branchArg c.invBranchId c.monthKey a c.d) acc).salesMap) k =
      projTotals acc.salesMap k + (cs.map (totContrib k)).sum := by
  intro cs
  induction cs with
  | nil => intro acc k; simp
  | cons c rest ih =>
    intro acc k
    simp only [List.foldl_cons, List.map_cons, List.sum_cons]
    rw [ih, projTotals_addLine, add_assoc]

theorem projBucket_fold (branchArg : Option ℕ) :
    ∀ (cs : List LineCtx) (acc : SalesAgg) (k mk : String),
      projBucket ((cs.foldl
        (fun a c => addLine branchArg c.invBranchId c.monthKey a c.d) acc).salesMap) k mk =
      projBucket acc.salesMap k mk + (cs.map (bucketContrib k mk)).sum := by
  intro cs
  induction cs with
  | nil => intro acc k mk; simp
  | cons c rest ih =>
    intro acc k mk
    simp only [List.foldl_cons, List.map_cons, List.sum_cons]
    rw [ih, projBucket_addLine, add_assoc]

theorem projBranchTotals_fold (branchArg : Option ℕ) :
    ∀ (cs : List LineCtx) (acc : SalesAgg) (b : ℕ) (k : String),
      projBranchTotals ((cs.foldl
        (fun a c => addLine branchArg c.invBranchId c.monthKey a c.d) acc).branchMaps) b k =
      projBranchTotals acc.branchMaps b k +
        (cs.map (brTotContrib branchArg b k)).sum := by
  intro cs
  induction cs with
  | nil => intro acc b k; simp
  | cons c rest ih =>
    intro acc b k
    simp only [List.foldl_cons, List.map_cons, List.sum_cons]
    rw [ih, projBranchTotals_addLine, add_assoc]

theorem projBranchBucket_fold (branchArg : Option ℕ) :
    ∀ (cs : List LineCtx) (acc : SalesAgg) (b : ℕ) (k mk : String),
      projBranchBucket ((cs.foldl
        (fun a c => addLine branchArg c.invBranchId c.monthKey a c.d) acc).branchMaps) b k mk =
      projBranchBucket acc.branchMaps b k mk +
        (cs.map (brBucketContrib branchArg b k mk)).sum := by
  intro cs
  induction cs with
  | nil => intro acc b k mk; simp
  | cons c rest ih =>
    intro acc b k mk
    simp only [List.foldl_cons, List.map_cons, List.sum_cons]
    rw [ih, projBranchBucket_addLine, add_assoc]

/-- C7: for any two permutations of the same invoice list the sales
aggregation yields identical summed fields — `(totalQty, totalQtyBox,
totalRevenue)` per item and per month bucket — in the combined map and in
every per-branch map. -/
theorem sales_aggregation_perm_invariant (mkOf : String → String)
    (branchArg : Option ℕ) (l₁ l₂ : List AccurateInvoice) (hp : l₁.Perm l₂) :
    ∀ k mk b,
      projTotals (aggregateSales mkOf branchArg l₁).salesMap k =
        projTotals (aggregateSales mkOf branchArg l₂).salesMap k ∧
      projBucket (aggregateSales mkOf branchArg l₁).salesMap k mk =
        projBucket (aggregateSales mkOf branchArg l₂).salesMap k mk ∧
      projBranchTotals (aggregateSales mkOf branchArg l₁).branchMaps b k =
        projBranchTotals (aggregateSales mkOf branchArg l₂).branchMaps b k ∧
      projBranchBucket (aggregateSales mkOf branchArg l₁).branchMaps b k mk =
        projBranchBucket (aggregateSales mkOf branchArg l₂).branchMaps b k mk := by
  intro k mk b
  have hc : (lineCtxs mkOf l₁).Perm (lineCtxs mkOf l₂) :=
    List.Perm.flatMap_right _ hp
  have e1 : aggregateSales mkOf branchArg l₁ =
      (lineCtxs mkOf l₁).foldl
        (fun a c => addLine branchArg c.invBranchId c.monthKey a c.d) ⟨[], []⟩ :=
    aggregateSales_lines mkOf branchArg l₁ ⟨[], []⟩
  have e2 : aggregateSales mkOf branchArg l₂ =
      (lineCtxs mkOf l₂).foldl
        (fun a c => addLine branchArg c.invBranchId c.monthKey a c.d) ⟨[], []⟩ :=
    aggregateSales_lines mkOf branchArg l₂ ⟨[], []⟩
  rw [e1, e2]
  refine ⟨?_, ?_, ?_, ?_⟩
  · rw [projTotals_fold, projTotals_fold]
    exact congrArg _ ((hc.map (totContrib k)).sum_eq)
  · rw [projBucket_fold, projBucket_fold]
    exact congrArg _ ((hc.map (bucketContrib k mk)).sum_eq)
  · rw [projBranchTotals_fold, projBranchTotals_fold]
    exact congrArg _ ((hc.map (brTotContrib branchArg b k)).sum_eq)
  · rw [projBranchBucket_fold, projBranchBucket_fold]
    exact congrArg _ ((hc.map (brBucketContrib branchArg b k mk)).sum_eq)

/-- Witness for C6 at a concrete input: one invoice with one line of 2 units
at price 5. -/
theorem sales_aggregation_additive_witness :
    entryAdditive (ItemSalesData.mk 2 2 10 [("Jan|2025", MonthBucket.mk 2 2 10)] 0 "Box") := by
  apply (sales_aggregation_additive (fun _ => "Jan|2025") none
    [AccurateInvoice.mk 1 "05/01/2025" (some 2)
      [AccurateInvoiceItem.mk "A" 2 0 1 5 0 "Box"]]).1 "A"
  norm_num [aggregateSales, processInvoice, addLine, bumpMap, bumpEntry,
    lineVals, emptyEntry, mgetD, mget, mset, jsTruthyNum, jsRound]
  simp

/-- Witness for C7 at a concrete input: two invoices in both orders. -/
theorem sales_aggregation_perm_invariant_witness :
    projTotals (aggregateSales (fun _ => "Jan|2025") none
      [AccurateInvoice.mk 1 "05/01/2025" (some 2)
          [AccurateInvoiceItem.mk "A" 2 0 1 5 0 "Box"],
        AccurateInvoice.mk 2 "06/01/2025" (some 3)
          [AccurateInvoiceItem.mk "A" 1 12 12 7 0 "Karung"]]).salesMap "A" =
    projTotals (aggregateSales (fun _ => "Jan|2025") none
      [AccurateInvoice.mk 2 "06/01/2025" (some 3)
          [AccurateInvoiceItem.mk "A" 1 12 12 7 0 "Karung"],
        AccurateInvoice.mk 1 "05/01/2025" (some 2)
          [AccurateInvoiceItem.mk "A" 2 0 1 5 0 "Box"]]).salesMap "A" := by
  exact (sales_aggregation_perm_invariant (fun _ => "Jan|2025") none _ _
    (List.Perm.swap _ _ _) "A" "Jan|2025" 1).1

/-- C9: the analytics status is assigned with first match winning —
CRITICAL if `stock ≤ safetyStock ∧ avgDailyUsage > 0`; else REORDER if
`stock ≤ reorderPoint ∧ avgDailyUsage > 0`; else OVERSTOCK if
`daysOfSupply > 90 ∨ (avgDailyUsage = 0 ∧ stock > 0)`; else OK — and an item
with stock 0, safetyStock 5, avgDailyUsage 2 is CRITICAL whatever its
reorder point and days of supply are. -/
theorem inventory_status_precedence :
    (∀ q ss rp adu dos : ℚ, computeStatus q ss rp adu dos = statusSpec q ss rp adu dos) ∧
    (∀ rp dos : ℚ, computeStatus 0 5 rp 2 dos = .CRITICAL) := by
  constructor
  · intro q ss rp adu dos
    rfl
  · intro rp dos
    have h : (0:ℚ) ≤ 5 ∧ (2:ℚ) > 0 := by norm_num
    simp [computeStatus, h]

theorem mgetD_poLineStep (b : Option ℕ)
    (acc : List (String × ℚ) × List (ℕ × List (String × ℚ)))
    (d : AccuratePOItem) (k : String) :
    mgetD (poLineStep b acc d).1 k 0 = mgetD acc.1 k 0 + poLineContrib k d := by
  by_cases h0 : d.itemNo = ""
  · simp [poLineStep, h0, poLineContrib]
  · by_cases hpos : max 0 (d.quantity - d.shipQuantity) > 0
    · by_cases hk : d.itemNo = k
      · subst hk
        simp [poLineStep, h0, hpos, poLineContrib, mgetD, mget_mset]
      · have hk2 : ¬ (d.itemNo = k) := hk
        simp [poLineStep, h0, hpos, poLineContrib, mgetD, mget_mset, hk2]
    · have hz : max 0 (d.quantity - d.shipQuantity) = 0 := by
        have := le_max_left 0 (d.quantity - d.shipQuantity)
        linarith [not_lt.mp hpos]
      simp [poLineStep, h0, hpos, poLineContrib, hz]

theorem mgetD_poFold (b : Option ℕ) (items : List AccuratePOItem) :
    ∀ acc k, mgetD (items.foldl (poLineStep b) acc).1 k 0 =
      mgetD acc.1 k 0 + (items.map (poLineContrib k)).sum := by
  induction items with
  | nil => intro acc k; simp
  | cons d rest ih =>
    intro acc k
    simp only [List.foldl_cons, List.map_cons, List.sum_cons]
    rw [ih, mgetD_poLineStep]
    ring

theorem mgetD_poStep (acc : List (String × ℚ) × List (ℕ × List (String × ℚ)))
    (po : AccuratePO) (k : String) :
    mgetD (poStep acc po).1 k 0 = mgetD acc.1 k 0 + poContrib k po := by
  by_cases hcl : isClosedStatus po.statusName
  · simp [poStep, hcl, poContrib]
  · simp [poStep, hcl, poContrib]
    exact mgetD_poFold po.branchId po.detailItem acc k

theorem mgetD_poAgg (pos : List AccuratePO) :
    ∀ acc k, mgetD (pos.foldl poStep acc).1 k 0 =
      mgetD acc.1 k 0 + (pos.map (poContrib k)).sum := by
  induction pos with
  | nil => intro acc k; simp
  | cons po rest ih =>
    intro acc k
    simp only [List.foldl_cons, List.map_cons, List.sum_cons]
    rw [ih, mgetD_poStep]
    ring

/-- C8: in `aggregatePOOutstanding`, the combined outstanding quantity of
every item equals the sum over non-closed POs of `max(0, quantity −
shipQuantity)` of the lines carrying that item number; a PO whose status
(lower-cased, trimmed) is in the closed set — e.g. `"Ditutup"` — contributes
nothing whatever its lines say. -/
theorem aggregatePO_closed_and_outstanding :
    (∀ pos k, mgetD (aggregatePOOutstanding pos).1 k 0 = (pos.map (poContrib k)).sum) ∧
    (∀ id b items, aggregatePOOutstanding [AccuratePO.mk id b "Ditutup" items] = ([], [])) ∧
    isClosedStatus " Closed " = true := by
  refine ⟨?_, ?_, by decide⟩
  · intro pos k
    have h := mgetD_poAgg pos ([], []) k
    simpa [aggregatePOOutstanding, mgetD, mget] using h
  · intro id b items
    have hcl : isClosedStatus "Ditutup" = true := by decide
    simp [aggregatePOOutstanding, poStep, hcl]

/-- C2: evaluation of both cache-read variants at the claim's inputs, with
`now = 100000000` ms. The file-based `loadSalesCache`/`loadWarehouseStockCache`
honour the claim: an entry of age TTL+1 minute is a miss, TTL−1 minute a hit.
The DB-backed variants cited by the claim return the cached map even for the
TTL+1-minute-old entry — no staleness check is performed, contradicting the
claim and the functions' own doc comments ("Returns null if cache is stale"),
with `CACHE_TTL_MS`/`WH_STOCK_CACHE_TTL` declared but unused. -/
theorem cache_ttl_read_behaviour :
    loadSalesCache 100000000
      [("sales-cache-2025-01-01.json", CachedSales.mk 96340000 [])]
      "2025-01-01" none = none ∧
    loadSalesCache 100000000
      [("sales-cache-2025-01-01.json", CachedSales.mk 96460000 [])]
      "2025-01-01" none = some [] ∧
    loadWarehouseStockCache 100000000
      [("warehouse-stock-cache.json", CachedWarehouseStock.mk 92740000 [])] = none ∧
    loadWarehouseStockCache 100000000
      [("warehouse-stock-cache.json", CachedWarehouseStock.mk 92860000 [])] = some [] ∧
    loadSalesCacheDB 100000000
      [("sales-cache-2025-01-01", CacheVal.sales (CachedSales.mk 96340000 []))]
      "2025-01-01" none = some [] ∧
    loadWarehouseStockCacheDB 100000000
      [("warehouse-stock-cache", CacheVal.whStock (CachedWarehouseStock.mk 92740000 []))]
      = some [] := by
  refine ⟨?_, ?_, ?_, ?_, ?_, ?_⟩ <;> decide

/-- C3: a scheduled trigger that fires while `isRunning` is set is skipped
when the flag has been held for at most `STALE_LOCK_MS` (20 minutes); when
held longer, the flag is force-cleared and the new run proceeds (retaking
the flag with the current time); and the `finally` block clears the flag on
every job end, success or failure alike. -/
theorem scheduler_stale_lock (st : SchedState) (now : ℕ) :
    (st.isRunning = true → now - st.isRunningTimestamp ≤ STALE_LOCK_MS →
      cronTickStart st now = (st, false)) ∧
    (st.isRunning = true → now - st.isRunningTimestamp > STALE_LOCK_MS →
      cronTickStart st now = (SchedState.mk true now, true)) ∧
    (∀ outcome : Except String Unit,
      (jobFinally st outcome).isRunning = false ∧
      (jobFinally st outcome).isRunningTimestamp = 0) := by
  refine ⟨?_, ?_, ?_⟩
  · intro h1 h2
    simp [cronTickStart, h1, Nat.not_lt.mpr h2]
  · intro h1 h2
    simp [cronTickStart, h1, h2]
  · intro outcome
    exact ⟨rfl, rfl⟩

/-- Witness for C3 at concrete inputs: a flag held exactly 20 minutes is
still respected; one held 20 minutes and 1 ms is broken; a failed job still
clears the flag. -/
theorem scheduler_stale_lock_witness :
    cronTickStart (SchedState.mk true 0) 1200000 = (SchedState.mk true 0, false) ∧
    cronTickStart (SchedState.mk true 0) 1200001 = (SchedState.mk true 1200001, true) ∧
    (jobFinally (SchedState.mk true 5) (Except.error "boom")).isRunning = false :=
  ⟨(scheduler_stale_lock (SchedState.mk true 0) 1200000).1 rfl (by decide),
   (scheduler_stale_lock (SchedState.mk true 0) 1200001).2.1 rfl (by decide),
   ((scheduler_stale_lock (SchedState.mk true 5) 0).2.2 (Except.error "boom")).1⟩

theorem str_append_assoc (a b c : String) : a ++ b ++ c = a ++ (b ++ c) := by
  obtain ⟨la⟩ := a
  obtain ⟨lb⟩ := b
  obtain ⟨lc⟩ := c
  exact congrArg String.mk (List.append_assoc la lb lc)

theorem str_append_empty (a : String) : a ++ "" = a := by
  obtain ⟨la⟩ := a
  exact congrArg String.mk (List.append_nil la)

theorem append_ne_of_head (c₁ c₂ : Char) (t₁ t₂ : List Char) (x y : String)
    (h : c₁ ≠ c₂) : String.mk (c₁ :: t₁) ++ x ≠ String.mk (c₂ :: t₂) ++ y := by
  intro heq
  have h2 : (c₁ :: t₁) ++ x.data = (c₂ :: t₂) ++ y.data :=
    congrArg String.data heq
  simp only [List.cons_append, List.cons.injEq] at h2
  exact h h2.1

theorem getCacheKey_eq_mk (dk : String) (b : Option ℕ) :
    getCacheKey dk b =
      String.mk ['s','a','l','e','s','-','c','a','c','h','e','-'] ++
        (dk ++ branchKeyPart b) := by
  rw [show getCacheKey dk b = "sales-cache-" ++ dk ++ branchKeyPart b from rfl,
    str_append_assoc]

theorem getPOCacheKey_eq_mk (b : Option ℕ) :
    getPOCacheKey b =
      String.mk ['p','o','-','o','u','t','s','t','a','n','d','i','n','g','-',
        'c','a','c','h','e'] ++
        (if jsTruthyNum b then "-branch" ++ Nat.repr (b.getD 0) else "") := by
  rw [getPOCacheKey]
  by_cases h : jsTruthyNum b
  · rw [if_pos h, if_pos h]
    exact str_append_assoc poCacheKeyBase "-branch" (Nat.repr (b.getD 0))
  · rw [if_neg h, if_neg h]
    exact (str_append_empty poCacheKeyBase).symm

theorem whKey_eq_mk :
    WH_STOCK_CACHE_KEY =
      String.mk ['w','a','r','e','h','o','u','s','e','-','s','t','o','c','k',
        '-','c','a','c','h','e'] ++ "" :=
  (str_append_empty WH_STOCK_CACHE_KEY).symm

theorem salesKey_ne_poKey (dk : String) (b b' : Option ℕ) :
    getCacheKey dk b ≠ getPOCacheKey b' := by
  rw [getCacheKey_eq_mk, getPOCacheKey_eq_mk]
  exact append_ne_of_head _ _ _ _ _ _ (by decide)

theorem whKey_ne_poKey (b' : Option ℕ) :
    WH_STOCK_CACHE_KEY ≠ getPOCacheKey b' := by
  rw [whKey_eq_mk, getPOCacheKey_eq_mk]
  exact append_ne_of_head _ _ _ _ _ _ (by decide)

theorem mget_savePOCacheM (now : ℕ) (b : Option ℕ) (m : List (String × ℚ))
    (cache : Cache) (k : String) (hk : ∀ b', k ≠ getPOCacheKey b') :
    mget (savePOCacheM now b m cache) k = mget cache k := by
  rw [savePOCacheM, mget_mset, if_neg]
  exact fun h => hk b h.symm

theorem mget_foldl_savePO (now : ℕ) (l : List (ℕ × List (String × ℚ))) :
    ∀ (cache : Cache) (k : String), (∀ b', k ≠ getPOCacheKey b') →
      mget (l.foldl (fun c p => savePOCacheM now (some p.1) p.2 c) cache) k =
        mget cache k := by
  induction l with
  | nil => intro cache k _; rfl
  | cons p rest ih =>
    intro cache k hk
    simp only [List.foldl_cons]
    rw [ih _ k hk, mget_savePOCacheM _ _ _ _ _ hk]

theorem mget_fetchAllPO (poList : List ℕ)
    (poDetail : Bool → ℕ → ℕ → AttemptOutcome AccuratePO) (b : Option ℕ)
    (now : ℕ) (cache : Cache) (k : String)
    (hk : ∀ b', k ≠ getPOCacheKey b') :
    mget (fetchAllPOOutstanding poList poDetail true b now cache).1 k =
      mget cache k := by
  rw [fetchAllPOOutstanding, if_neg (by simp), fetchAllPOCore]
  by_cases hemp : poList.isEmpty
  · rw [if_pos hemp]
    exact mget_savePOCacheM _ _ _ _ _ hk
  · rw [if_neg hemp]
    simp only []
    by_cases hg : jsTruthyNum b = false ∧
        (aggregatePOOutstanding (fetchPODetailsInBatch poDetail poList 15).1).2 ≠ []
    · rw [if_pos hg, mget_foldl_savePO _ _ _ _ hk, mget_savePOCacheM _ _ _ _ _ hk]
    · rw [if_neg hg, mget_savePOCacheM _ _ _ _ _ hk]

theorem fetchAllSalesData_skip_fst (env : SalesFetchEnv) (mkOf : String → String)
    (now : ℕ) (dk : String) (b : Option ℕ) (cache : Cache) :
    (fetchAllSalesData env mkOf now dk true b true cache).1 = cache := by
  rw [fetchAllSalesData, if_neg (by simp), if_neg (by simp), fetchAllSalesCore,
    if_pos rfl]

theorem mget_executeSyncPhases (cfg : SyncCfg) (env : AttemptEnv)
    (cache : Cache) (k : String) (hk : ∀ b', k ≠ getPOCacheKey b') :
    mget (executeSyncPhases cfg env cache).1 k = mget cache k := by
  rw [executeSyncPhases]
  have hs := fetchAllSalesData_skip_fst env.sales cfg.mkOf cfg.now cfg.dateKey
    cfg.branchId cache
  cases hinv : env.inventory with
  | error e => simp only []; rw [hs]
  | ok itemNos =>
    cases hpo : env.poPhaseFailure with
    | some msg => simp only []; rw [hs]
    | none =>
      simp only []
      rw [mget_fetchAllPO _ _ _ _ _ _ hk, hs]

theorem attemptSync_fst (cfg : SyncCfg) (env : AttemptEnv) (cache : Cache) :
    (attemptSync cfg env cache).1 = (executeSyncPhases cfg env cache).1 := by
  rw [attemptSync]
  by_cases h : env.timeout <;> simp [h]

theorem mget_attemptSync (cfg : SyncCfg) (env : AttemptEnv) (cache : Cache)
    (k : String) (hk : ∀ b', k ≠ getPOCacheKey b') :
    mget (attemptSync cfg env cache).1 k = mget cache k := by
  rw [attemptSync_fst]
  exact mget_executeSyncPhases cfg env cache k hk

theorem syncJobLoop_succ (cfg : SyncCfg) (envs : ℕ → AttemptEnv)
    (attempt fuel : ℕ) (cache : Cache) :
    syncJobLoop cfg envs attempt (fuel + 1) cache =
      match (attemptSync cfg (envs attempt) cache).2 with
      | .ok out =>
        (saveWarehouseStockCacheM cfg.now out.whMap
          (saveSalesCacheM cfg.now cfg.dateKey cfg.branchId out.salesMap
            (attemptSync cfg (envs attempt) cache).1), true)
      | .error _ =>
        syncJobLoop cfg envs (attempt + 1) fuel
          (attemptSync cfg (envs attempt) cache).1 := rfl

theorem mget_syncJobLoop_failed (cfg : SyncCfg) (envs : ℕ → AttemptEnv) :
    ∀ (fuel attempt : ℕ) (cache : Cache),
      (syncJobLoop cfg envs attempt fuel cache).2 = false →
      ∀ k, (∀ b', k ≠ getPOCacheKey b') →
        mget (syncJobLoop cfg envs attempt fuel cache).1 k = mget cache k := by
  intro fuel
  induction fuel with
  | zero => intro attempt cache _ k _; rfl
  | succ f ih =>
    intro attempt cache hfail k hk
    rw [syncJobLoop_succ] at hfail ⊢
    cases hr : (attemptSync cfg (envs attempt) cache).2 with
    | ok out =>
      simp only [hr] at hfail
      simp at hfail
    | error e =>
      simp only [hr] at hfail ⊢
      rw [ih _ _ hfail k hk, mget_attemptSync _ _ _ _ hk]

/-- C1: the atomic sync job. (i) `executeSyncPhases` — which calls
`fetchAllSalesData` with `skipCacheOps = true` — leaves every sales cache key
and the warehouse-stock key untouched (only PO keys may change, which the
claim exempts); (ii) a failed attempt leaves those keys exactly as before the
attempt; (iii) a job in which every attempt failed leaves them as before the
job; (iv) only a fully successful attempt commits, writing the sales cache
and then the warehouse-stock cache on top of the phase-output cache. -/
theorem atomic_sync_commit (cfg : SyncCfg) :
    (∀ env cache dk b,
      mget (executeSyncPhases cfg env cache).1 (getCacheKey dk b) =
        mget cache (getCacheKey dk b) ∧
      mget (executeSyncPhases cfg env cache).1 WH_STOCK_CACHE_KEY =
        mget cache WH_STOCK_CACHE_KEY) ∧
    (∀ env cache c' e, attemptSync cfg env cache = (c', Except.error e) →
      ∀ dk b, mget c' (getCacheKey dk b) = mget cache (getCacheKey dk b) ∧
        mget c' WH_STOCK_CACHE_KEY = mget cache WH_STOCK_CACHE_KEY) ∧
    (∀ envs cache, (executeSyncJob cfg envs cache).2 = false →
      ∀ dk b, mget (executeSyncJob cfg envs cache).1 (getCacheKey dk b) =
          mget cache (getCacheKey dk b) ∧
        mget (executeSyncJob cfg envs cache).1 WH_STOCK_CACHE_KEY =
          mget cache WH_STOCK_CACHE_KEY) ∧
    (∀ envs (attempt fuel : ℕ) env cache out c', envs attempt = env →
      attemptSync cfg env cache = (c', Except.ok out) →
      syncJobLoop cfg envs attempt (fuel + 1) cache =
        (saveWarehouseStockCacheM cfg.now out.whMap
          (saveSalesCacheM cfg.now cfg.dateKey cfg.branchId out.salesMap c'),
          true)) := by
  refine ⟨?_, ?_, ?_, ?_⟩
  · intro env cache dk b
    exact ⟨mget_executeSyncPhases cfg env cache _ (salesKey_ne_poKey dk b),
      mget_executeSyncPhases cfg env cache _ whKey_ne_poKey⟩
  · intro env cache c' e hatt dk b
    have h1 : c' = (attemptSync cfg env cache).1 := by rw [hatt]
    rw [h1]
    exact ⟨mget_attemptSync cfg env cache _ (salesKey_ne_poKey dk b),
      mget_attemptSync cfg env cache _ whKey_ne_poKey⟩
  · intro envs cache hfail dk b
    exact ⟨mget_syncJobLoop_failed cfg envs MAX_RETRIES 1 cache hfail _
        (salesKey_ne_poKey dk b),
      mget_syncJobLoop_failed cfg envs MAX_RETRIES 1 cache hfail _ whKey_ne_poKey⟩
  · intro envs attempt fuel env cache out c' henv hatt
    rw [syncJobLoop_succ, henv, hatt]

/-- Witness for C1 at a concrete input: a job whose inventory phase throws on
every attempt fails, and the prior sales entry under the job's own key is
untouched. -/
theorem atomic_sync_commit_witness :
    (executeSyncJob syncCfgW (fun _ => attemptEnvFailW) cacheW).2 = false ∧
    mget (executeSyncJob syncCfgW (fun _ => attemptEnvFailW) cacheW).1
        (getCacheKey "2025-01-01" none) =
      mget cacheW (getCacheKey "2025-01-01" none) := by
  have hfail : (executeSyncJob syncCfgW (fun _ => attemptEnvFailW) cacheW).2 = false := by
    decide
  exact ⟨hfail, ((atomic_sync_commit syncCfgW).2.2.1 (fun _ => attemptEnvFailW)
    cacheW hfail "2025-01-01" none).1⟩

end WarehouseSync
